import Mathlib

/-!
Shallow embedding of the agent program in src/python/agent_demo.py:
the tool-server RPC client, the OpenAI-compatible provider (unary request,
retrying send, stream decoding), the event-folding aggregator, the
argument decoder, and the conversation loop of run_agent.  Machine-level
I/O (sockets, pipes, sleeping) is represented by explicit oracles: the
sequence of HTTP attempt outcomes, the reply line available on the tool
channel, and the stream of SSE lines.  All functions are executable.
-/

set_option linter.unusedVariables false

/-- Token usage counters mirroring the TokenUsage class of the source:
input, output and total token counts. -/
structure TokenUsage where
  input_tokens : Nat
  output_tokens : Nat
  total_tokens : Nat
deriving Repr, DecidableEq

/-- Field-wise addition of usage counters, mirroring TokenUsage.add (the
Python method mutates self; the model returns the updated value). -/
def TokenUsage.add (a b : TokenUsage) : TokenUsage :=
  ⟨a.input_tokens + b.input_tokens, a.output_tokens + b.output_tokens,
   a.total_tokens + b.total_tokens⟩

/-- Zero usage, the value of the bare constructor call TokenUsage(). -/
def TokenUsage.zero : TokenUsage := ⟨0, 0, 0⟩

/-- Normalized tool-call record: the dict with keys id, name, arguments
built by _parse_tool_calls and kept per slot by the stream decoder. -/
structure ToolCall where
  id : String
  name : String
  arguments : String
deriving Repr, DecidableEq

/-- JSON values as produced by json.loads.  Numeric literals are modelled
as integers and unicode escapes are not modelled (they never occur in the
behaviour under test; the agent code only ever branches on whether the
parse succeeded and whether the result is an object). -/
inductive JVal where
  | null
  | bool (b : Bool)
  | num (n : Int)
  | str (s : String)
  | arr (xs : List JVal)
  | obj (kvs : List (String × JVal))
deriving Repr

/-- Left brace character, written via its code point. -/
def lbrace : Char := Char.ofNat 123

/-- Right brace character, written via its code point. -/
def rbrace : Char := Char.ofNat 125

/-- Whitespace skipping for the JSON reader. -/
def skipWs : List Char → List Char
  | [] => []
  | c :: cs =>
    if c = ' ' ∨ c = '\t' ∨ c = '\n' ∨ c = '\r' then skipWs cs else c :: cs

/-- Decoding of a single escape character in a JSON string literal. -/
def parseEsc (c : Char) : Option Char :=
  if c = '"' then some '"'
  else if c = '\\' then some '\\'
  else if c = '/' then some '/'
  else if c = 'n' then some '\n'
  else if c = 't' then some '\t'
  else if c = 'r' then some '\r'
  else if c = 'b' then some (Char.ofNat 8)
  else if c = 'f' then some (Char.ofNat 12)
  else none

/-- Reading of a JSON string body after the opening quote; returns the
decoded characters and the remaining input. -/
def parseStrChars : List Char → Option (List Char × List Char)
  | [] => none
  | c :: rest =>
    if c = '"' then some ([], rest)
    else if c = '\\' then
      match rest with
      | [] => none
      | e :: rest2 =>
        match parseEsc e, parseStrChars rest2 with
        | some ec, some (s, r) => some (ec :: s, r)
        | _, _ => none
    else
      match parseStrChars rest with
      | some (s, r) => some (c :: s, r)
      | none => none

/-- Longest leading run of decimal digits. -/
def takeDigits : List Char → (List Char × List Char)
  | [] => ([], [])
  | c :: cs =>
    if c.isDigit then
      let (ds, r) := takeDigits cs
      (c :: ds, r)
    else ([], c :: cs)

/-- Numeric value of a digit run. -/
def digitsToNat (ds : List Char) : Nat :=
  ds.foldl (fun a c => a * 10 + (c.toNat - 48)) 0

/-- Integer literal reader (a following fraction or exponent marker makes
the parse fail: floats are outside the modelled subset). -/
def parseNumFrom (cs : List Char) : Option (JVal × List Char) :=
  let (neg, body) :=
    match cs with
    | '-' :: rest => (true, rest)
    | _ => (false, cs)
  let (ds, r) := takeDigits body
  if ds.isEmpty then none
  else
    match r with
    | c :: _ =>
      if c = '.' ∨ c = 'e' ∨ c = 'E' then none
      else some (JVal.num (if neg then -(digitsToNat ds : Int) else (digitsToNat ds : Int)), r)
    | [] => some (JVal.num (if neg then -(digitsToNat ds : Int) else (digitsToNat ds : Int)), [])

/-- Parsing mode of the fueled JSON reader: a single value, the items of
an array after the opening bracket, or the members of an object after the
opening brace. -/
inductive PMode where
  | val
  | arrItems
  | objItems

/-- Result carrier of the fueled JSON reader. -/
inductive PRes where
  | v (x : JVal)
  | vs (xs : List JVal)
  | kvs (l : List (String × JVal))

/-- Fueled recursive-descent JSON reader used to model json.loads. -/
def parseCore : Nat → PMode → List Char → Option (PRes × List Char)
  | 0, _, _ => none
  | Nat.succ fuel, PMode.val, cs =>
    match skipWs cs with
    | 'n' :: 'u' :: 'l' :: 'l' :: rest => some (PRes.v JVal.null, rest)
    | 't' :: 'r' :: 'u' :: 'e' :: rest => some (PRes.v (JVal.bool true), rest)
    | 'f' :: 'a' :: 'l' :: 's' :: 'e' :: rest => some (PRes.v (JVal.bool false), rest)
    | '"' :: rest =>
      (match parseStrChars rest with
       | some (s, r) => some (PRes.v (JVal.str (String.mk s)), r)
       | none => none)
    | '[' :: rest =>
      (match skipWs rest with
       | ']' :: r => some (PRes.v (JVal.arr []), r)
       | _ =>
         match parseCore fuel PMode.arrItems rest with
         | some (PRes.vs xs, r) => some (PRes.v (JVal.arr xs), r)
         | _ => none)
    | c :: rest =>
      if c = lbrace then
        match skipWs rest with
        | c2 :: r2 =>
          if c2 = rbrace then some (PRes.v (JVal.obj []), r2)
          else
            match parseCore fuel PMode.objItems rest with
            | some (PRes.kvs l, r) => some (PRes.v (JVal.obj l), r)
            | _ => none
        | [] => none
      else if c.isDigit ∨ c = '-' then
        match parseNumFrom (c :: rest) with
        | some (v, r) => some (PRes.v v, r)
        | none => none
      else none
    | [] => none
  | Nat.succ fuel, PMode.arrItems, cs =>
    match parseCore fuel PMode.val cs with
    | some (PRes.v x, r) =>
      (match skipWs r with
       | ',' :: r2 =>
         (match parseCore fuel PMode.arrItems r2 with
          | some (PRes.vs xs, r3) => some (PRes.vs (x :: xs), r3)
          | _ => none)
       | ']' :: r2 => some (PRes.vs [x], r2)
       | _ => none)
    | _ => none
  | Nat.succ fuel, PMode.objItems, cs =>
    match skipWs cs with
    | '"' :: rest =>
      (match parseStrChars rest with
       | some (k, r) =>
         (match skipWs r with
          | ':' :: r2 =>
            (match parseCore fuel PMode.val r2 with
             | some (PRes.v x, r3) =>
               (match skipWs r3 with
                | ',' :: r4 =>
                  (match parseCore fuel PMode.objItems r4 with
                   | some (PRes.kvs l, r5) => some (PRes.kvs ((String.mk k, x) :: l), r5)
                   | _ => none)
                | c :: r4 =>
                  if c = rbrace then some (PRes.kvs [(String.mk k, x)], r4) else none
                | [] => none)
             | _ => none)
          | _ => none)
       | none => none)
    | _ => none

/-- Model of json.loads on a whole string: parse one value, then require
only whitespace to remain. -/
def jsonParse (s : String) : Option JVal :=
  match parseCore (2 * s.length + 8) PMode.val s.toList with
  | some (PRes.v v, rest) => if (skipWs rest).isEmpty then some v else none
  | _ => none

/-- Python value reaching normalize_arguments: a dict (already structured),
a string, or anything else. -/
inductive PyAny where
  | dict (d : List (String × JVal))
  | str (s : String)
  | other

/-- Model of normalize_arguments: dicts pass through, strings are parsed
and kept only when they parse to an object, everything else (and every
parse failure, which the source swallows with try/except) yields the empty
object. -/
def normalize_arguments : PyAny → List (String × JVal)
  | PyAny.dict d => d
  | PyAny.str s =>
    (match jsonParse s with
     | some (JVal.obj o) => o
     | _ => [])
  | PyAny.other => []

/-- Usage object read with .get from a chunk or a unary result: the three
optional token counters. -/
structure UsageObj where
  prompt_tokens : Option Nat
  completion_tokens : Option Nat
  total_tokens : Option Nat
deriving Repr, DecidableEq

/-- Conversion of an optional usage object into TokenUsage counters,
mirroring int(u.get(key) or 0) on each field. -/
def UsageObj.toUsage (u : UsageObj) : TokenUsage :=
  ⟨u.prompt_tokens.getD 0, u.completion_tokens.getD 0, u.total_tokens.getD 0⟩

/-- Function part of a streamed tool-call fragment (tc["function"]),
holding the optional name and arguments pieces. -/
structure FragFunction where
  name : Option String
  arguments : Option String
deriving Repr, DecidableEq

/-- Streamed tool-call fragment: one element of delta["tool_calls"]. -/
structure Fragment where
  index : Option Nat
  id : Option String
  function : Option FragFunction
deriving Repr, DecidableEq

/-- Delta object of one streamed choice.  tool_calls is none exactly when
the key is absent: the source tests membership with the in operator before
iterating, and iterates over the value or the empty list. -/
structure Delta where
  content : Option String
  tool_calls : Option (List Fragment)
deriving Repr, DecidableEq

/-- Choice of a streamed chunk. -/
structure ChunkChoice where
  delta : Option Delta
  finish_reason : Option String
deriving Repr, DecidableEq

/-- Parsed streaming chunk: the JSON object carried by one data line.
usage is none when absent or not a dict; choices models
chunk.get("choices") or []. -/
structure Chunk where
  usage : Option UsageObj
  choices : List ChunkChoice
deriving Repr, DecidableEq

/-- Aggregated provider response.  message_content models the only message
field the agent reads, message.get("content"); finish_reason carries the
raw diagnostic payload of the streaming path (the unary raw payload is
never read by the loop and is not modelled). -/
structure ProviderResponse where
  message_content : Option String
  tool_calls : List ToolCall
  finish_reason : String
  usage : TokenUsage
deriving Repr, DecidableEq

/-- Streaming events of the decoder: ProviderEvent in the source, each
variant with the payload fields that event type populates. -/
inductive ProviderEvent where
  | content_delta (content : String)
  | tool_use_start (tool_call : ToolCall)
  | tool_use_delta (tool_call : ToolCall)
  | tool_use_stop (tool_call : ToolCall)
  | complete (response : ProviderResponse)
deriving Repr, DecidableEq

/-- Lookup in the index-keyed slot dict tool_calls_by_index. -/
def dictGet : List (Nat × ToolCall) → Nat → Option ToolCall
  | [], _ => none
  | (k, v) :: rest, i => if k = i then some v else dictGet rest i

/-- Write into the index-keyed slot dict: replace the entry in place, or
append a new key at the end (Python dicts keep insertion order). -/
def dictSet : List (Nat × ToolCall) → Nat → ToolCall → List (Nat × ToolCall)
  | [], i, v => [(i, v)]
  | (k, w) :: rest, i, v =>
    if k = i then (i, v) :: rest else (k, w) :: dictSet rest i v

/-- Insertion of a key into an ascending key list. -/
def insertSorted (n : Nat) : List Nat → List Nat
  | [] => [n]
  | m :: ms => if n ≤ m then n :: m :: ms else m :: insertSorted n ms

/-- Insertion sort over the dict keys, modelling sorted(d.keys()). -/
def sortKeys : List Nat → List Nat
  | [] => []
  | n :: ns => insertSorted n (sortKeys ns)

/-- Mutable state of _parse_stream: emitted events, accumulated text, last
finish reason, running usage and the index-keyed slot dict. -/
structure StreamState where
  events : List ProviderEvent
  content : String
  finish_reason : String
  usage : TokenUsage
  tool_calls_by_index : List (Nat × ToolCall)
deriving Repr, DecidableEq

/-- Initial decoder state. -/
def initState : StreamState := ⟨[], "", "", TokenUsage.zero, []⟩

/-- Processing of one streamed tool-call fragment, mirroring the body of
the inner loop of _parse_stream: read the slot by positional index
(defaulting a fresh slot), set the id the first time a truthy id arrives,
set the name whenever a truthy name differs from the recorded one (each
setting emits tool_use_start on a copy of the slot), append any truthy
argument piece and emit tool_use_delta with the cumulative value, then
write the slot back. -/
def processFragment (st : StreamState) (tc : Fragment) : StreamState :=
  let idx := tc.index.getD 0
  let current0 := (dictGet st.tool_calls_by_index idx).getD ⟨"", "", ""⟩
  let step1 :=
    if tc.id.getD "" ≠ "" ∧ current0.id = "" then
      let cur := { current0 with id := tc.id.getD "" }
      (cur, st.events ++ [ProviderEvent.tool_use_start cur])
    else (current0, st.events)
  let current1 := step1.1
  let func := tc.function.getD ⟨none, none⟩
  let step2 :=
    if func.name.getD "" ≠ "" ∧ current1.name ≠ func.name.getD "" then
      let cur := { current1 with name := func.name.getD "" }
      (cur, step1.2 ++ [ProviderEvent.tool_use_start cur])
    else (current1, step1.2)
  let current2 := step2.1
  let step3 :=
    if func.arguments.getD "" ≠ "" then
      let cur := { current2 with arguments := current2.arguments ++ func.arguments.getD "" }
      (cur, step2.2 ++ [ProviderEvent.tool_use_delta cur])
    else (current2, step2.2)
  { st with
      events := step3.2
      tool_calls_by_index := dictSet st.tool_calls_by_index idx step3.1 }

/-- Processing of one streamed choice: emit and accumulate a truthy
content delta, process the tool-call fragments when the key is present,
and remember a truthy finish reason. -/
def processChoice (st : StreamState) (choice : ChunkChoice) : StreamState :=
  let delta := choice.delta.getD ⟨none, none⟩
  let st1 :=
    match delta.content with
    | some t =>
      if t ≠ "" then
        { st with
            events := st.events ++ [ProviderEvent.content_delta t]
            content := st.content ++ t }
      else st
    | none => st
  let st2 :=
    match delta.tool_calls with
    | some frags => frags.foldl processFragment st1
    | none => st1
  if choice.finish_reason.getD "" ≠ "" then
    { st2 with finish_reason := choice.finish_reason.getD "" }
  else st2

/-- Processing of one chunk: add its usage counters (when a usage dict is
present) and process every choice in order. -/
def processChunk (st : StreamState) (chunk : Chunk) : StreamState :=
  let st1 :=
    match chunk.usage with
    | some u => { st with usage := st.usage.add u.toUsage }
    | none => st
  chunk.choices.foldl processChoice st1

/-- One line handed to the decoder, after the byte-level classification of
the source: blank after stripping, a line without the data prefix, the
data [DONE] sentinel, a data line whose payload fails json.loads, or a
data line carrying a parsed chunk.  End of the list models end of the
underlying stream. -/
inductive StreamLine where
  | blank
  | noise
  | done
  | malformed
  | chunk (c : Chunk)
deriving Repr, DecidableEq

/-- Main read loop of _parse_stream: skip blank and non-data lines, stop
at the [DONE] sentinel or end of stream, skip undecodable payloads, and
process each chunk. -/
def decodeLoop (st : StreamState) : List StreamLine → StreamState
  | [] => st
  | StreamLine.blank :: rest => decodeLoop st rest
  | StreamLine.noise :: rest => decodeLoop st rest
  | StreamLine.done :: _ => st
  | StreamLine.malformed :: rest => decodeLoop st rest
  | StreamLine.chunk c :: rest => decodeLoop (processChunk st c) rest

/-- Finalized tool-call list: visit the slots in ascending key order and
synthesize the id call_<index> for a slot whose id was never assigned. -/
def finalCalls (st : StreamState) : List ToolCall :=
  (sortKeys (st.tool_calls_by_index.map Prod.fst)).map fun idx =>
    let tc := (dictGet st.tool_calls_by_index idx).getD ⟨"", "", ""⟩
    if tc.id = "" then { tc with id := "call_" ++ toString idx } else tc

/-- Aggregated response built at end of stream: message {"content": text},
the finalized tool-call list, the raw finish reason and the running usage
total. -/
def aggregate (st : StreamState) : ProviderResponse :=
  ⟨some st.content, finalCalls st, st.finish_reason, st.usage⟩

/-- Model of _parse_stream: run the read loop, then append one
tool_use_stop per finalized slot and a single complete event carrying the
aggregated response. -/
def parse_stream (lines : List StreamLine) : List ProviderEvent :=
  let st := decodeLoop initState lines
  st.events ++ (finalCalls st).map ProviderEvent.tool_use_stop
    ++ [ProviderEvent.complete (aggregate st)]

/-- Lookup in the id-keyed replay dict of response_from_events. -/
def assocGet : List (String × ToolCall) → String → Option ToolCall
  | [], _ => none
  | (k, v) :: rest, i => if k = i then some v else assocGet rest i

/-- Write into the id-keyed replay dict, keeping insertion order. -/
def assocSet : List (String × ToolCall) → String → ToolCall → List (String × ToolCall)
  | [], i, v => [(i, v)]
  | (k, w) :: rest, i, v =>
    if k = i then (i, v) :: rest else (k, w) :: assocSet rest i v

/-- Mutable state of response_from_events. -/
structure FoldState where
  response : Option ProviderResponse
  content : String
  tool_calls_by_id : List (String × ToolCall)
  usage : TokenUsage
deriving Repr, DecidableEq

/-- Folding of one captured event, mirroring the loop body of
response_from_events: concatenate content deltas; for the three tool
event kinds with a non-empty id merge name and arguments last-value-wins
into the id-keyed dict; a complete event records its response and usage. -/
def foldEvent (st : FoldState) (e : ProviderEvent) : FoldState :=
  let st1 :=
    match e with
    | ProviderEvent.content_delta t => { st with content := st.content ++ t }
    | _ => st
  let st2 :=
    match e with
    | ProviderEvent.tool_use_start tc
    | ProviderEvent.tool_use_delta tc
    | ProviderEvent.tool_use_stop tc =>
      if tc.id = "" then st1
      else
        let current0 := (assocGet st1.tool_calls_by_id tc.id).getD ⟨tc.id, "", ""⟩
        let current1 := if tc.name ≠ "" then { current0 with name := tc.name } else current0
        let current2 :=
          if tc.arguments ≠ "" then { current1 with arguments := tc.arguments } else current1
        { st1 with tool_calls_by_id := assocSet st1.tool_calls_by_id tc.id current2 }
    | _ => st1
  match e with
  | ProviderEvent.complete r => { st2 with response := some r, usage := r.usage }
  | _ => st2

/-- Model of response_from_events: fold the events; when a complete event
was seen its embedded response is returned as-is, otherwise the replay
state is assembled into a response (empty raw payload). -/
def response_from_events (events : List ProviderEvent) : ProviderResponse :=
  let st := events.foldl foldEvent ⟨none, "", [], TokenUsage.zero⟩
  match st.response with
  | some r => r
  | none => ⟨some st.content, st.tool_calls_by_id.map Prod.snd, "", st.usage⟩

/-- Function object of one raw unary tool call. -/
structure RawFunction where
  name : Option String
  arguments : Option String
deriving Repr, DecidableEq

/-- Raw tool call of a unary assistant message. -/
structure RawCall where
  id : Option String
  function : Option RawFunction
deriving Repr, DecidableEq

/-- Assistant message of the first unary choice, restricted to the fields
the source reads: content and tool_calls. -/
structure AssistantMessage where
  content : Option String
  tool_calls : Option (List RawCall)
deriving Repr, DecidableEq

/-- One unary choice. -/
structure UnaryChoice where
  message : AssistantMessage
deriving Repr, DecidableEq

/-- Parsed unary completion body: choices and the optional usage object. -/
structure UnaryResult where
  choices : List UnaryChoice
  usage : Option UsageObj
deriving Repr, DecidableEq

/-- Model of _parse_tool_calls: normalize each raw call to
{id, name, arguments} with .get defaults, the arguments default being the
literal two-character object text. -/
def parse_tool_calls (m : AssistantMessage) : List ToolCall :=
  (m.tool_calls.getD []).map fun call =>
    let function := call.function.getD ⟨none, none⟩
    ⟨call.id.getD "", function.name.getD "", function.arguments.getD "\x7b\x7d"⟩

/-- Model of extract_token_usage on a unary result: an absent usage object
yields zero counters, otherwise each field defaults to 0. -/
def extract_token_usage (r : UnaryResult) : TokenUsage :=
  match r.usage with
  | some u => u.toUsage
  | none => TokenUsage.zero

/-- Model of OpenAICompatibleProvider.request after the network layer:
take the first choice (none models the KeyError/IndexError escape on an
empty choice list), parse its tool calls, extract usage. -/
def unary_request (r : UnaryResult) : Option ProviderResponse :=
  r.choices.head?.map fun choice =>
    let assistant_msg := choice.message
    ⟨assistant_msg.content, parse_tool_calls assistant_msg, "",
     extract_token_usage r⟩

/-- Outcome of one network attempt inside _request_with_retries: a decoded
success body, an HTTPError with status code, optional Retry-After header
value and diagnostic body, or a URLError (connection-level failure,
including the attempt timeout). -/
inductive AttemptOutcome where
  | success (body : String)
  | httpError (code : Nat) (retry_after : Option String) (body : String)
  | urlError (body : String)
deriving Repr, DecidableEq

/-- Terminal result of the retry loop: a returned body or a re-raised
attempt failure. -/
inductive RetryOutcome where
  | ok (body : String)
  | raised (e : AttemptOutcome)
deriving Repr, DecidableEq

/-- Result of the retry loop together with the sequence of sleeps (in
milliseconds) it performed, in order. -/
structure RetryTrace where
  result : RetryOutcome
  delays : List Nat
deriving Repr, DecidableEq

/-- Model of str.isdigit for the Retry-After header value. -/
def isdigitStr (s : String) : Bool :=
  !s.isEmpty && s.toList.all Char.isDigit

/-- Numeric value of a digit string, modelling int(...) on it. -/
def strToNat (s : String) : Nat :=
  s.toList.foldl (fun a c => a * 10 + (c.toNat - 48)) 0

/-- Model of _request_with_retries (the identical inline copy in stream
shares it).  outcome gives the result of each attempt, numbered from 1;
jitter gives the value of int(backoff * random.uniform(0.0, 0.2)) drawn at
each attempt.  An HTTPError outside {429, 500} is re-raised immediately;
a retryable failure on attempt 8 is re-raised; otherwise the loop sleeps
Retry-After seconds when that header is a digit string, else
2000 * 2 ^ (attempt - 1) plus the jitter, and tries again. -/
def request_with_retries (outcome : Nat → AttemptOutcome) (jitter : Nat → Nat)
    (attempts : Nat) : RetryTrace :=
  let a := attempts + 1
  match outcome a with
  | AttemptOutcome.success body => ⟨RetryOutcome.ok body, []⟩
  | AttemptOutcome.httpError code retry_after body =>
    if code ≠ 429 ∧ code ≠ 500 then
      ⟨RetryOutcome.raised (AttemptOutcome.httpError code retry_after body), []⟩
    else if 8 ≤ a then
      ⟨RetryOutcome.raised (AttemptOutcome.httpError code retry_after body), []⟩
    else
      let sleep_ms :=
        match retry_after with
        | some ra =>
          if isdigitStr ra then strToNat ra * 1000
          else 2000 * 2 ^ (a - 1) + jitter a
        | none => 2000 * 2 ^ (a - 1) + jitter a
      let rest := request_with_retries outcome jitter a
      ⟨rest.result, sleep_ms :: rest.delays⟩
  | AttemptOutcome.urlError body =>
    if 8 ≤ a then
      ⟨RetryOutcome.raised (AttemptOutcome.urlError body), []⟩
    else
      let sleep_ms := 2000 * 2 ^ (a - 1) + jitter a
      let rest := request_with_retries outcome jitter a
      ⟨rest.result, sleep_ms :: rest.delays⟩
termination_by 8 - attempts
decreasing_by
  all_goals omega

/-- Tool result object carried in the result field of a call_tool reply
(the dict whose content key the loop reads). -/
structure ToolResultObj where
  content : Option String
deriving Repr, DecidableEq

/-- Reply line decoded from the tool-server stdout: the optional id, the
optional error object (modelled by its message) and the optional result. -/
structure RpcReply where
  id : Option String
  error : Option String
  result : Option ToolResultObj
deriving Repr, DecidableEq

/-- Failure kinds of ToolServerClient.request, each a RuntimeError in the
source, distinguished here by the condition that raised it. -/
inductive ChannelError where
  | channelClosed
  | protocolViolation (expected got : String)
  | remoteToolError (message : String)
deriving Repr, DecidableEq

/-- Rendering of an optional reply id inside the mismatch message, the way
the f-string renders resp.get("id"). -/
def optDisplay : Option String → String
  | some s => s
  | none => "None"

/-- Exception text str(e) of each channel error, as built in the source. -/
def ChannelError.message : ChannelError → String
  | ChannelError.channelClosed => "toolserver exited"
  | ChannelError.protocolViolation expected got =>
    "mismatched response id: expected " ++ expected ++ ", got " ++ got
  | ChannelError.remoteToolError m => m

/-- Model of ToolServerClient.request for one call.  next_id is the
current counter (the source starts it at 1 and increments before reading);
reply is the line read back, none when the child stream ended.  Exactly
one reply is consumed; a missing line fails as channelClosed, an id
differing from str(next_id) fails as protocolViolation, a truthy error
object fails as remoteToolError, otherwise the result field is returned. -/
def client_request (next_id : Nat) (reply : Option RpcReply) :
    Except ChannelError (Option ToolResultObj) :=
  let req_id := toString next_id
  match reply with
  | none => Except.error ChannelError.channelClosed
  | some resp =>
    if resp.id ≠ some req_id then
      Except.error (ChannelError.protocolViolation req_id (optDisplay resp.id))
    else
      match resp.error with
      | some msg => Except.error (ChannelError.remoteToolError msg)
      | none => Except.ok resp.result

/-- Sequence of ids handed out by n successive requests: next_id is
returned and then incremented, mirroring the counter of the client. -/
def clientIds : Nat → Nat → List Nat
  | _, 0 => []
  | next_id, Nat.succ n => next_id :: clientIds (next_id + 1) n

/-- Provider-side failures that escape the retry loop into run_agent:
an HTTPError (caught separately for its body) or any other exception. -/
inductive ProviderError where
  | httpError (code : Nat) (body : String)
  | otherError (text : String)
deriving Repr, DecidableEq

/-- Conversation message, mirroring the dicts appended to messages:
the seeded system and user messages, the assistant record built by
build_assistant_message, and the tool-role record built after dispatch. -/
inductive Msg where
  | system (content : String)
  | user (content : String)
  | assistant (content : Option String) (tool_calls : List ToolCall)
  | tool (tool_call_id : String) (name : String) (content : String)
deriving Repr, DecidableEq

/-- Model of build_assistant_message: the assistant record keeps the
optional content and the (possibly empty, then omitted) serialized
tool-call list, which round-trips the normalized calls unchanged. -/
def build_assistant_message (content : Option String) (tool_calls : List ToolCall) : Msg :=
  Msg.assistant content tool_calls

/-- Terminal state of one run, read off the return path taken by
run_agent: the empty-tool-call return 0, the exception return 1, or the
fallthrough return 1 after the step loop. -/
inductive RunOutcome where
  | success
  | aborted
  | budgetExceeded
deriving Repr, DecidableEq

/-- Observable result of a run: outcome, process exit code, the final
answer printed to stdout (none when no text was emitted), the full message
history, accumulated usage, number of provider calls, number of tool-call
dispatches, and the final channel id counter. -/
structure RunResult where
  outcome : RunOutcome
  exitCode : Nat
  finalOutput : Option String
  messages : List Msg
  usage : TokenUsage
  providerCalls : Nat
  toolCalls : Nat
  nextId : Nat
deriving Repr, DecidableEq

/-- Dispatch of one tool call from the loop body: decode the arguments
(the structured value does not influence the modelled reply), perform the
channel request consuming the reply line for the current id, and build the
tool-role content — the returned content on success, the literal failure
pattern when any exception was raised inside the try block (a channel
error, or the attribute error when the result is not a dict). -/
def dispatch_call (replies : Nat → Option RpcReply) (next_id : Nat) (call : ToolCall) :
    Msg × Nat :=
  let args_obj := normalize_arguments (PyAny.str call.arguments)
  let tool_content :=
    match client_request next_id (replies next_id) with
    | Except.ok (some r) => r.content.getD ""
    | Except.ok none =>
      "tool call failed: \x27NoneType\x27 object has no attribute \x27get\x27"
    | Except.error e => "tool call failed: " ++ e.message
  (Msg.tool call.id call.name tool_content, next_id + 1)

/-- Sequential dispatch of the calls of one step, appending exactly one
tool-role message per call in call order and threading the id counter and
the dispatch count. -/
def dispatchAll (replies : Nat → Option RpcReply) :
    List ToolCall → List Msg → Nat → Nat → List Msg × Nat × Nat
  | [], messages, next_id, tcalls => (messages, next_id, tcalls)
  | call :: rest, messages, next_id, tcalls =>
    let r := dispatch_call replies next_id call
    dispatchAll replies rest (messages ++ [r.1]) r.2 (tcalls + 1)

/-- Step loop of run_agent.  provider gives the aggregated response (or
the exception) of the provider call at each 1-based step — the streaming
and unary paths both produce a ProviderResponse, so the loop model is
common to them; replies gives the tool-channel reply line per request id.
Each iteration appends the assistant message, accumulates usage, returns
success on an empty tool-call list (printing truthy content), otherwise
dispatches every call and continues; exhausting steps_left falls through
to the budget-exceeded return. -/
def runSteps (provider : Nat → Except ProviderError ProviderResponse)
    (replies : Nat → Option RpcReply) (step : Nat) (steps_left : Nat)
    (messages : List Msg) (total_usage : TokenUsage) (next_id : Nat)
    (pcalls tcalls : Nat) : RunResult :=
  match steps_left with
  | 0 =>
    ⟨RunOutcome.budgetExceeded, 1, none, messages, total_usage, pcalls, tcalls, next_id⟩
  | Nat.succ left =>
    match provider step with
    | Except.error _ =>
      ⟨RunOutcome.aborted, 1, none, messages, total_usage, pcalls + 1, tcalls, next_id⟩
    | Except.ok response =>
      let messages1 :=
        messages ++ [build_assistant_message response.message_content response.tool_calls]
      let total_usage1 := total_usage.add response.usage
      if response.tool_calls = [] then
        let content := response.message_content.getD ""
        ⟨RunOutcome.success, 0, if content ≠ "" then some content else none,
         messages1, total_usage1, pcalls + 1, tcalls, next_id⟩
      else
        let d := dispatchAll replies response.tool_calls messages1 next_id tcalls
        runSteps provider replies (step + 1) left d.1 total_usage1 d.2.1 (pcalls + 1) d.2.2

/-- Tool descriptor as returned by list_tools, restricted to the name
field the loop reads for the system prompt. -/
structure ToolDesc where
  name : Option String
deriving Repr, DecidableEq

/-- Model of run_agent.  tools stands for the result of the initial
client.list_tools() call (request id 1, performed before the loop), so the
channel counter enters the loop at 2; the system and user messages seed
the history and the step loop runs with budget max_steps. -/
def run_agent (provider : Nat → Except ProviderError ProviderResponse)
    (replies : Nat → Option RpcReply) (tools : List ToolDesc) (prompt : String)
    (max_steps : Nat) : RunResult :=
  let tool_names := tools.filterMap fun t =>
    if t.name.getD "" ≠ "" then some (t.name.getD "") else none
  let tool_list_text := String.intercalate "，" tool_names
  let system_prompt :=
    "你是一个会使用工具的助手。需要时调用工具。完成后直接给出答案。回复内容尽量使用中文。"
      ++ "可用工具：" ++ tool_list_text
      ++ "。如果任务需要写文件且存在 write 工具，必须使用 write。"
  let messages := [Msg.system system_prompt, Msg.user prompt]
  runSteps provider replies 1 max_steps messages TokenUsage.zero 2 0 0

/-- Logical completion used to compare the two provider paths: the text
split into delta chunks, the ordered tool calls, and the usage totals. -/
structure Completion where
  textChunks : List String
  calls : List ToolCall
  usage : TokenUsage
deriving Repr, DecidableEq

/-- Concatenation of a chunk list, the text the completion reconstructs. -/
def concatAll : List String → String
  | [] => ""
  | s :: rest => s ++ concatAll rest

/-- Pairing of each list element with its positional slot index. -/
def withIdx : Nat → List ToolCall → List (Nat × ToolCall)
  | _, [] => []
  | i, c :: rest => (i, c) :: withIdx (i + 1) rest

/-- Stream line carrying one content delta chunk. -/
def mkTextLine (t : String) : StreamLine :=
  StreamLine.chunk ⟨none, [⟨some ⟨some t, none⟩, none⟩]⟩

/-- Stream line carrying one whole tool-call fragment at its slot index. -/
def mkCallLine (p : Nat × ToolCall) : StreamLine :=
  StreamLine.chunk
    ⟨none, [⟨some ⟨none, some [⟨some p.1, some p.2.id, some ⟨some p.2.name, some p.2.arguments⟩⟩]⟩, none⟩]⟩

/-- Stream line carrying the usage report chunk. -/
def mkUsageLine (u : TokenUsage) : StreamLine :=
  StreamLine.chunk
    ⟨some ⟨some u.input_tokens, some u.output_tokens, some u.total_tokens⟩, []⟩

/-- Event-stream encoding of a completion: its text chunk by chunk, each
tool call as one fragment on its slot, the usage chunk, and the [DONE]
sentinel. -/
def encodeStream (c : Completion) : List StreamLine :=
  c.textChunks.map mkTextLine ++ (withIdx 0 c.calls).map mkCallLine
    ++ [mkUsageLine c.usage, StreamLine.done]

/-- Unary body encoding of the same completion: one choice whose message
carries the reconstructed text and the serialized tool calls, and the
usage object with the same totals. -/
def encodeUnary (c : Completion) : UnaryResult :=
  ⟨[⟨⟨some (concatAll c.textChunks),
      some (c.calls.map fun s => ⟨some s.id, some ⟨some s.name, some s.arguments⟩⟩)⟩⟩],
   some ⟨some c.usage.input_tokens, some c.usage.output_tokens, some c.usage.total_tokens⟩⟩

/-- Completion of the equivalence scenario: text Hello world and one ls
call with arguments {"path":"."}. -/
def helloCompletion : Completion :=
  ⟨["Hello", " world"], [⟨"call_abc", "ls", "\x7b\"path\":\".\"\x7d"⟩], ⟨5, 7, 12⟩⟩

/-- Test for a tool_use_start event. -/
def isStartB : ProviderEvent → Bool
  | ProviderEvent.tool_use_start _ => true
  | _ => false

/-- Test for a tool_use_delta event. -/
def isDeltaB : ProviderEvent → Bool
  | ProviderEvent.tool_use_delta _ => true
  | _ => false

/-- Slot-keying scenario of the decoder: on slot 0 a name fragment before
the id fragment, then two argument fragments, then [DONE]. -/
def c4Lines : List StreamLine :=
  [StreamLine.chunk ⟨none, [⟨some ⟨none, some [⟨some 0, none, some ⟨some "ls", none⟩⟩]⟩, none⟩]⟩,
   StreamLine.chunk ⟨none, [⟨some ⟨none, some [⟨some 0, some "call_abc", none⟩]⟩, none⟩]⟩,
   StreamLine.chunk ⟨none, [⟨some ⟨none, some [⟨some 0, none, some ⟨none, some "\x7b\"pa"⟩⟩]⟩, none⟩]⟩,
   StreamLine.chunk ⟨none, [⟨some ⟨none, some [⟨some 0, none, some ⟨none, some "th\":\".\"\x7d"⟩⟩]⟩, none⟩]⟩,
   StreamLine.done]

/-- Retryable attempt failure: HTTP 429 or 500, or a connection failure. -/
def Retryable : AttemptOutcome → Prop
  | AttemptOutcome.success _ => False
  | AttemptOutcome.httpError code _ _ => code = 429 ∨ code = 500
  | AttemptOutcome.urlError _ => True

/-- Retryable failure that carries no usable Retry-After header. -/
def RetryableNoRA (o : AttemptOutcome) : Prop :=
  Retryable o ∧ ∀ code ra body, o = AttemptOutcome.httpError code ra body → ra = none

/-- Outcome sequence that fails every attempt with a bare 429, the body
recording the attempt number. -/
def outcomeAll429 (a : Nat) : AttemptOutcome :=
  AttemptOutcome.httpError 429 none (toString a)

/-- Outcome sequence whose first attempt is a 429 with Retry-After 3 and
whose second attempt succeeds. -/
def outcomeRA3 : Nat → AttemptOutcome
  | 1 => AttemptOutcome.httpError 429 (some "3") "rate limited"
  | _ => AttemptOutcome.success "okbody"

/-- Provider script of the dispatch-failure-abort scenario: the first step
requests one ls call, the second step answers with text and no calls. -/
def c1Provider : Nat → Except ProviderError ProviderResponse
  | 1 => Except.ok ⟨none, [⟨"id1", "ls", "\x7b\x7d"⟩], "", ⟨1, 1, 2⟩⟩
  | _ => Except.ok ⟨some "done", [], "stop", ⟨3, 4, 7⟩⟩

/-- Tool channel of that scenario: the child stream has ended, so every
read yields no line. -/
def c1Replies : Nat → Option RpcReply :=
  fun _ => none

/-- Provider script of the tool-failure scenario, identical shape. -/
def c5Provider : Nat → Except ProviderError ProviderResponse
  | 1 => Except.ok ⟨none, [⟨"id1", "ls", "\x7b\x7d"⟩], "", ⟨1, 1, 2⟩⟩
  | _ => Except.ok ⟨some "all good", [], "stop", ⟨3, 4, 7⟩⟩

/-- Tool channel of the tool-failure scenario: every reply is well-formed
but carries an application error object with message boom. -/
def c5Replies : Nat → Option RpcReply :=
  fun n => some ⟨some (toString n), some "boom", none⟩

/-- Provider script of the budget scenario: every step requests one ls
call and never returns a final text. -/
def c6Provider : Nat → Except ProviderError ProviderResponse :=
  fun _ => Except.ok ⟨none, [⟨"id1", "ls", "\x7b\x7d"⟩], "", ⟨1, 1, 2⟩⟩

/-- Tool channel of the budget scenario: every call succeeds with listing
as content. -/
def c6Replies : Nat → Option RpcReply :=
  fun n => some ⟨some (toString n), none, some ⟨some "listing"⟩⟩

/-- Test for a complete event. -/
def isCompleteB : ProviderEvent → Bool
  | ProviderEvent.complete _ => true
  | _ => false

/-! Helper lemmas. -/

/-- Skipping a malformed data line leaves the decoder state unchanged at
any point of the read loop. -/
theorem decodeLoop_drop_malformed :
    ∀ (pre : List StreamLine) (st : StreamState) (post : List StreamLine),
      decodeLoop st (pre ++ StreamLine.malformed :: post) = decodeLoop st (pre ++ post)
  | [], _, _ => rfl
  | StreamLine.blank :: pre, st, post => decodeLoop_drop_malformed pre st post
  | StreamLine.noise :: pre, st, post => decodeLoop_drop_malformed pre st post
  | StreamLine.done :: _, _, _ => rfl
  | StreamLine.malformed :: pre, st, post => decodeLoop_drop_malformed pre st post
  | StreamLine.chunk c :: pre, st, post =>
    decodeLoop_drop_malformed pre (processChunk st c) post

/-- Ids handed out by successive channel requests are bounded below by the
starting counter and strictly increase. -/
theorem clientIds_bounds :
    ∀ (n s : Nat), List.Chain' (· < ·) (clientIds s n) ∧ ∀ i ∈ clientIds s n, s ≤ i := by
  intro n
  induction n with
  | zero => intro s; exact ⟨List.chain'_nil, by simp [clientIds]⟩
  | succ m ih =>
    intro s
    constructor
    · rw [show clientIds s (m + 1) = s :: clientIds (s + 1) m from rfl]
      rw [List.chain'_cons']
      refine ⟨?_, (ih (s + 1)).1⟩
      intro y hy
      have hmem := List.mem_of_mem_head? hy
      have := (ih (s + 1)).2 y hmem
      omega
    · intro i hi
      rw [show clientIds s (m + 1) = s :: clientIds (s + 1) m from rfl] at hi
      rcases List.mem_cons.mp hi with h | h
      · omega
      · have := (ih (s + 1)).2 i h
        omega

/-- Exhausting consecutive retryable failures makes the loop raise the
failure of attempt 8 after one sleep per earlier attempt. -/
theorem retries_exhaust :
    ∀ (n k : Nat) (outcome : Nat → AttemptOutcome) (jitter : Nat → Nat),
      k + n = 7 → (∀ a, k + 1 ≤ a → a ≤ 8 → Retryable (outcome a)) →
      (request_with_retries outcome jitter k).result = RetryOutcome.raised (outcome 8) ∧
      (request_with_retries outcome jitter k).delays.length = 7 - k := by
  intro n
  induction n with
  | zero =>
    intro k outcome jitter hk hr
    have hk7 : k = 7 := by omega
    subst hk7
    have h8 := hr 8 (by omega) (by omega)
    unfold request_with_retries
    rcases ho : outcome 8 with body | ⟨code, ra, body⟩ | body
    · rw [ho] at h8; exact absurd h8 (by simp [Retryable])
    · rw [ho] at h8
      simp only [Retryable] at h8
      simp [ho, show ¬(code ≠ 429 ∧ code ≠ 500) by omega]
    · simp [ho]
  | succ m ih =>
    intro k outcome jitter hk hr
    have hlt : ¬ 8 ≤ k + 1 := by omega
    have hcur := hr (k + 1) (by omega) (by omega)
    have hrest := ih (k + 1) outcome jitter (by omega)
      (fun a h1 h2 => hr a (by omega) h2)
    unfold request_with_retries
    rcases ho : outcome (k + 1) with body | ⟨code, ra, body⟩ | body
    · rw [ho] at hcur; exact absurd hcur (by simp [Retryable])
    · rw [ho] at hcur
      simp only [Retryable] at hcur
      simp [ho, hlt, show ¬(code ≠ 429 ∧ code ≠ 500) by omega]
      refine ⟨hrest.1, ?_⟩
      rw [hrest.2]
      omega
    · simp [ho, hlt]
      refine ⟨hrest.1, ?_⟩
      rw [hrest.2]
      omega

theorem retries_delays :
    ∀ (n k : Nat) (outcome : Nat → AttemptOutcome) (jitter : Nat → Nat),
      k + n = 7 → (∀ a, k + 1 ≤ a → a ≤ 8 → RetryableNoRA (outcome a)) →
      (request_with_retries outcome jitter k).delays =
        (List.range' (k + 1) (7 - k)).map (fun a => 2000 * 2 ^ (a - 1) + jitter a) := by
  intro n
  induction n with
  | zero =>
    intro k outcome jitter hk hr
    have hk7 : k = 7 := by omega
    subst hk7
    have h8 := hr 8 (by omega) (by omega)
    unfold request_with_retries
    rcases ho : outcome 8 with body | ⟨code, ra, body⟩ | body
    · rw [ho] at h8; exact absurd h8.1 (by simp [Retryable])
    · have hc := h8.1
      rw [ho] at hc
      simp only [Retryable] at hc
      simp [ho, show ¬(code ≠ 429 ∧ code ≠ 500) by omega]
    · simp [ho]
  | succ m ih =>
    intro k outcome jitter hk hr
    have hlt : ¬ 8 ≤ k + 1 := by omega
    have hcur := hr (k + 1) (by omega) (by omega)
    have hrest := ih (k + 1) outcome jitter (by omega)
      (fun a h1 h2 => hr a (by omega) h2)
    have hrange : List.range' (k + 1) (7 - k) = (k + 1) :: List.range' (k + 2) (7 - (k + 1)) := by
      have h7 : 7 - k = (7 - (k + 1)) + 1 := by omega
      rw [h7, List.range'_succ]
    unfold request_with_retries
    rcases ho : outcome (k + 1) with body | ⟨code, ra, body⟩ | body
    · rw [ho] at hcur; exact absurd hcur.1 (by simp [Retryable])
    · have hra : ra = none := by
        have := hcur.2
        rw [ho] at this
        exact this code ra body rfl
      have hc := hcur.1
      rw [ho] at hc
      simp only [Retryable] at hc
      subst hra
      simp [ho, hlt, show ¬(code ≠ 429 ∧ code ≠ 500) by omega, hrange, hrest]
    · simp [ho, hlt, hrange, hrest]

/-- Jittered backoff at one attempt is at most 1.2 times the base value.  -/
theorem backoff_upper (jitter : Nat → Nat) (hJ : ∀ a, jitter a ≤ 400 * 2 ^ (a - 1)) :
    ∀ a, 2000 * 2 ^ (a - 1) + jitter a ≤ 2400 * 2 ^ (a - 1) := by
  intro a
  have := hJ a
  omega

/-- Jittered backoff grows between consecutive attempts. -/
theorem backoff_mono (jitter : Nat → Nat) (hJ : ∀ a, jitter a ≤ 400 * 2 ^ (a - 1)) :
    ∀ a, 1 ≤ a → 2000 * 2 ^ (a - 1) + jitter a ≤ 2000 * 2 ^ ((a + 1) - 1) + jitter (a + 1) := by
  intro a ha
  have h1 := hJ a
  have hpow : 2 ^ ((a + 1) - 1) = 2 * 2 ^ (a - 1) := by
    have : (a + 1) - 1 = (a - 1) + 1 := by omega
    rw [this, pow_succ]
    ring
  rw [hpow]
  omega

/-! Claim theorems, with their witnesses and counterexamples. -/

/-- C10: a data line whose payload is neither the [DONE] sentinel nor
valid JSON is silently skipped by the streaming decoder: the whole event
output (hence the aggregated result) equals that of the same input with
the malformed line removed, so no event is emitted for it and no error is
raised. -/
theorem claim10_malformed_data_line_skipped :
    ∀ (pre post : List StreamLine),
      parse_stream (pre ++ StreamLine.malformed :: post) = parse_stream (pre ++ post) := by
  intro pre post
  unfold parse_stream
  rw [decodeLoop_drop_malformed]

/-- C7: decoding a tool-call argument string never raises (the model is a
total function): every parse failure or non-object parse result yields the
empty object, and in particular the inputs an empty string, not json and
an array literal all decode to the empty object, while the object literal
with key a decodes to it. -/
theorem claim7_argument_decoding :
    (∀ s : String, (∀ o, jsonParse s ≠ some (JVal.obj o)) →
      normalize_arguments (PyAny.str s) = []) ∧
    normalize_arguments (PyAny.str "") = [] ∧
    normalize_arguments (PyAny.str "not json") = [] ∧
    normalize_arguments (PyAny.str "[]") = [] ∧
    normalize_arguments (PyAny.str "\x7b\"a\":1\x7d") = [("a", JVal.num 1)] := by
  refine ⟨?_, rfl, rfl, rfl, rfl⟩
  intro s h
  simp only [normalize_arguments]

/-- Witness for C7 at the concrete non-object input [1,2]. -/
theorem claim7_witness : normalize_arguments (PyAny.str "[1,2]") = [] :=
  claim7_argument_decoding.1 "[1,2]" (by
    intro o h
    rw [show jsonParse "[1,2]" = some (JVal.arr [JVal.num 1, JVal.num 2]) from rfl] at h
    exact JVal.noConfusion (Option.some.inj h))

/-- C9: the ids assigned by the tool channel over any run are strictly
increasing positive integers (the counter starts at 1 and increments once
per request, one outstanding request at a time); a reply whose id differs
from the request id fails as the protocol-violation error carrying both
ids (the single reply line is consumed and nothing is buffered or
resynchronized), and a request only succeeds when the reply id equals the
request id. -/
theorem claim9_rpc_id_protocol :
    (∀ n : Nat, List.Chain' (· < ·) (clientIds 1 n) ∧ ∀ i ∈ clientIds 1 n, 0 < i) ∧
    (∀ (next_id : Nat) (r : RpcReply), r.id ≠ some (toString next_id) →
      client_request next_id (some r) =
        Except.error (ChannelError.protocolViolation (toString next_id) (optDisplay r.id))) ∧
    (∀ (next_id : Nat) (r : RpcReply) (v : Option ToolResultObj),
      client_request next_id (some r) = Except.ok v → r.id = some (toString next_id)) := by
  refine ⟨?_, ?_, ?_⟩
  · intro n
    obtain ⟨h1, h2⟩ := clientIds_bounds n 1
    exact ⟨h1, fun i hi => h2 i hi⟩
  · intro next_id r h
    simp [client_request, h]
  · intro next_id r v h
    by_cases hid : r.id = some (toString next_id)
    · exact hid
    · simp [client_request, hid] at h

/-- Witness for C9 at a concrete mismatched reply id. -/
theorem claim9_witness :
    client_request 1 (some ⟨some "2", none, none⟩) =
      Except.error (ChannelError.protocolViolation (toString 1) (optDisplay (some "2"))) :=
  claim9_rpc_id_protocol.2.1 1 ⟨some "2", none, none⟩ (by decide)

/-- C2 (amended): the retry loop retries only 429, 500 and connection
failures — any other HTTP status is re-raised immediately with no sleep;
under consecutive retryable failures it performs 8 attempts total and the
8th consecutive failure re-raises that failure (there is no 9th attempt);
without Retry-After the sleeps are 2000 * 2 ^ (attempt - 1) plus the
0 to 20 percent jitter, hence non-decreasing and bounded by
2400 * 2 ^ (attempt - 1); a 429 with Retry-After 3 sleeps exactly
3000 ms. -/
theorem claim2_retry_policy :
    (∀ (outcome : Nat → AttemptOutcome) (jitter : Nat → Nat)
        (attempts code : Nat) (ra : Option String) (body : String),
      outcome (attempts + 1) = AttemptOutcome.httpError code ra body →
      code ≠ 429 → code ≠ 500 →
      request_with_retries outcome jitter attempts =
        ⟨RetryOutcome.raised (AttemptOutcome.httpError code ra body), []⟩) ∧
    (∀ (outcome : Nat → AttemptOutcome) (jitter : Nat → Nat),
      (∀ a, 1 ≤ a → a ≤ 8 → Retryable (outcome a)) →
      (request_with_retries outcome jitter 0).result = RetryOutcome.raised (outcome 8) ∧
      (request_with_retries outcome jitter 0).delays.length = 7) ∧
    (∀ (outcome : Nat → AttemptOutcome) (jitter : Nat → Nat),
      (∀ a, 1 ≤ a → a ≤ 8 → RetryableNoRA (outcome a)) →
      (request_with_retries outcome jitter 0).delays =
        (List.range' 1 7).map (fun a => 2000 * 2 ^ (a - 1) + jitter a)) ∧
    (∀ (outcome : Nat → AttemptOutcome) (jitter : Nat → Nat),
      (∀ a, jitter a ≤ 400 * 2 ^ (a - 1)) →
      (∀ a, 1 ≤ a → a ≤ 8 → RetryableNoRA (outcome a)) →
      List.Chain' (· ≤ ·) (request_with_retries outcome jitter 0).delays ∧
      ∀ d ∈ (request_with_retries outcome jitter 0).delays,
        ∃ a, 1 ≤ a ∧ a ≤ 7 ∧ d = 2000 * 2 ^ (a - 1) + jitter a ∧
          d ≤ 2400 * 2 ^ (a - 1)) ∧
    (∀ (outcome : Nat → AttemptOutcome) (jitter : Nat → Nat) (attempts : Nat) (body : String),
      outcome (attempts + 1) = AttemptOutcome.httpError 429 (some "3") body →
      attempts + 1 < 8 →
      (request_with_retries outcome jitter attempts).delays.head? = some 3000) := by
  refine ⟨?_, ?_, ?_, ?_, ?_⟩
  · intro outcome jitter attempts code ra body h h429 h500
    unfold request_with_retries
    simp [h, h429, h500]
  · intro outcome jitter hr
    exact retries_exhaust 7 0 outcome jitter (by omega) (fun a h1 h2 => hr a h1 h2)
  · intro outcome jitter hr
    exact retries_delays 7 0 outcome jitter (by omega) (fun a h1 h2 => hr a h1 h2)
  · intro outcome jitter hJ hr
    have hd := retries_delays 7 0 outcome jitter (by omega) (fun a h1 h2 => hr a h1 h2)
    rw [hd]
    constructor
    · rw [show List.range' 1 7 = [1, 2, 3, 4, 5, 6, 7] from rfl]
      simp only [List.map_cons, List.map_nil, List.chain'_cons, List.chain'_singleton,
        and_true]
      refine ⟨?_, ?_, ?_, ?_, ?_, ?_⟩ <;>
        first
          | exact backoff_mono jitter hJ 1 (by omega)
          | exact backoff_mono jitter hJ 2 (by omega)
          | exact backoff_mono jitter hJ 3 (by omega)
          | exact backoff_mono jitter hJ 4 (by omega)
          | exact backoff_mono jitter hJ 5 (by omega)
          | exact backoff_mono jitter hJ 6 (by omega)
    · intro d hd2
      rcases List.mem_map.mp hd2 with ⟨a, ha, hda⟩
      rw [show List.range' 1 7 = [1, 2, 3, 4, 5, 6, 7] from rfl] at ha
      have hb : 1 ≤ a ∧ a ≤ 7 := by
        simp only [List.mem_cons, List.mem_singleton, List.not_mem_nil, or_false] at ha
        rcases ha with h | h | h | h | h | h | h <;> omega
      exact ⟨a, hb.1, hb.2, hda.symm, by rw [← hda]; exact backoff_upper jitter hJ a⟩
  · intro outcome jitter attempts body h hlt
    unfold request_with_retries
    simp [h, show ¬ 8 ≤ attempts + 1 by omega,
      show isdigitStr "3" = true from by decide, show strToNat "3" = 3 from by decide]

/-- Counterexample for C2 as stated: under consecutive 429 failures whose
bodies record their attempt number, the loop raises the failure of attempt
8 after 7 sleeps — it never reaches a 9th failure, and the error it
re-raises is neither a 9th one nor the original first one. -/
theorem claim2_counterexample :
    request_with_retries outcomeAll429 (fun _ => 0) 0 =
      ⟨RetryOutcome.raised (AttemptOutcome.httpError 429 none "8"),
       [2000, 4000, 8000, 16000, 32000, 64000, 128000]⟩ ∧
    (request_with_retries outcomeAll429 (fun _ => 0) 0).result ≠
      RetryOutcome.raised (outcomeAll429 9) ∧
    (request_with_retries outcomeAll429 (fun _ => 0) 0).result ≠
      RetryOutcome.raised (outcomeAll429 1) := by
  have h : request_with_retries outcomeAll429 (fun _ => 0) 0 =
      ⟨RetryOutcome.raised (AttemptOutcome.httpError 429 none "8"),
       [2000, 4000, 8000, 16000, 32000, 64000, 128000]⟩ := by
    simp [request_with_retries, outcomeAll429]
    decide
  refine ⟨h, ?_, ?_⟩ <;> rw [h] <;> decide

/-- Witness for C2 at the concrete Retry-After 3 scenario. -/
theorem claim2_witness :
    (request_with_retries outcomeRA3 (fun _ => 0) 0).delays.head? = some 3000 :=
  claim2_retry_policy.2.2.2.2 outcomeRA3 (fun _ => 0) 0 "rate limited" rfl (by omega)

/-- C4: streamed tool-call fragments accumulate per positional slot: a
truthy id arriving on a slot without one records it and emits
tool_use_start; a truthy name differing from the recorded one records it
and emits tool_use_start again; a truthy argument fragment is appended to
the cumulative argument string and emitted as tool_use_delta carrying the
cumulative value; and the concrete scenario — name fragment before id
fragment, then two argument fragments — produces exactly two
tool_use_start events and two cumulative tool_use_delta events whose
second value is the concatenation of both fragments. -/
theorem claim4_slot_accumulation :
    (∀ (st : StreamState) (i : Nat) (s : String),
      s ≠ "" →
      ((dictGet st.tool_calls_by_index i).getD ⟨"", "", ""⟩).id = "" →
      processFragment st ⟨some i, some s, none⟩ =
        { st with
            events := st.events ++ [ProviderEvent.tool_use_start
              { (dictGet st.tool_calls_by_index i).getD ⟨"", "", ""⟩ with id := s }]
            tool_calls_by_index := dictSet st.tool_calls_by_index i
              { (dictGet st.tool_calls_by_index i).getD ⟨"", "", ""⟩ with id := s } }) ∧
    (∀ (st : StreamState) (i : Nat) (nm : String),
      nm ≠ "" →
      ((dictGet st.tool_calls_by_index i).getD ⟨"", "", ""⟩).name ≠ nm →
      processFragment st ⟨some i, none, some ⟨some nm, none⟩⟩ =
        { st with
            events := st.events ++ [ProviderEvent.tool_use_start
              { (dictGet st.tool_calls_by_index i).getD ⟨"", "", ""⟩ with name := nm }]
            tool_calls_by_index := dictSet st.tool_calls_by_index i
              { (dictGet st.tool_calls_by_index i).getD ⟨"", "", ""⟩ with name := nm } }) ∧
    (∀ (st : StreamState) (i : Nat) (frag : String),
      frag ≠ "" →
      processFragment st ⟨some i, none, some ⟨none, some frag⟩⟩ =
        { st with
            events := st.events ++ [ProviderEvent.tool_use_delta
              { (dictGet st.tool_calls_by_index i).getD ⟨"", "", ""⟩ with arguments :=
                  ((dictGet st.tool_calls_by_index i).getD ⟨"", "", ""⟩).arguments ++ frag }]
            tool_calls_by_index := dictSet st.tool_calls_by_index i
              { (dictGet st.tool_calls_by_index i).getD ⟨"", "", ""⟩ with arguments :=
                  ((dictGet st.tool_calls_by_index i).getD ⟨"", "", ""⟩).arguments ++ frag } }) ∧
    parse_stream c4Lines =
      [ProviderEvent.tool_use_start ⟨"", "ls", ""⟩,
       ProviderEvent.tool_use_start ⟨"call_abc", "ls", ""⟩,
       ProviderEvent.tool_use_delta ⟨"call_abc", "ls", "\x7b\"pa"⟩,
       ProviderEvent.tool_use_delta ⟨"call_abc", "ls", "\x7b\"path\":\".\"\x7d"⟩,
       ProviderEvent.tool_use_stop ⟨"call_abc", "ls", "\x7b\"path\":\".\"\x7d"⟩,
       ProviderEvent.complete
         ⟨some "", [⟨"call_abc", "ls", "\x7b\"path\":\".\"\x7d"⟩], "", ⟨0, 0, 0⟩⟩] ∧
    (parse_stream c4Lines).filter isStartB =
      [ProviderEvent.tool_use_start ⟨"", "ls", ""⟩,
       ProviderEvent.tool_use_start ⟨"call_abc", "ls", ""⟩] ∧
    (parse_stream c4Lines).filter isDeltaB =
      [ProviderEvent.tool_use_delta ⟨"call_abc", "ls", "\x7b\"pa"⟩,
       ProviderEvent.tool_use_delta ⟨"call_abc", "ls", "\x7b\"pa" ++ "th\":\".\"\x7d"⟩] := by
  refine ⟨?_, ?_, ?_, by decide, by decide, by decide⟩
  · intro st i s hs hid
    simp [processFragment, hs, hid]
  · intro st i nm hnm hdiff
    simp [processFragment, hnm, hdiff]
  · intro st i frag hfrag
    simp [processFragment, hfrag]

/-- Witness for C4: the id-assignment conjunct applied on the fresh
initial state. -/
theorem claim4_witness :
    processFragment initState ⟨some 0, some "x", none⟩ =
      { initState with
          events := [ProviderEvent.tool_use_start ⟨"x", "", ""⟩]
          tool_calls_by_index := [(0, ⟨"x", "", ""⟩)] } :=
  claim4_slot_accumulation.1 initState 0 "x" (by decide) (by decide)

/-- Fragment processing appends no complete event. -/
theorem processFragment_any_complete (st : StreamState) (tc : Fragment) :
    (processFragment st tc).events.any isCompleteB = st.events.any isCompleteB := by
  simp only [processFragment]
  split_ifs <;> simp [List.any_append, isCompleteB]

/-- Folding fragment processing appends no complete event. -/
theorem foldl_processFragment_any_complete :
    ∀ (frags : List Fragment) (st : StreamState),
      (frags.foldl processFragment st).events.any isCompleteB = st.events.any isCompleteB
  | [], st => rfl
  | tc :: rest, st => by
    rw [List.foldl_cons, foldl_processFragment_any_complete rest (processFragment st tc),
      processFragment_any_complete]

/-- Choice processing appends no complete event. -/
theorem processChoice_any_complete (st : StreamState) (choice : ChunkChoice) :
    (processChoice st choice).events.any isCompleteB = st.events.any isCompleteB := by
  simp only [processChoice]
  rcases (choice.delta.getD ⟨none, none⟩).content with _ | t <;>
    rcases (choice.delta.getD ⟨none, none⟩).tool_calls with _ | frags <;>
    split_ifs <;>
    simp [foldl_processFragment_any_complete, List.any_append, isCompleteB] <;>
    split <;>
    simp [List.any_append, isCompleteB]

/-- Chunk processing appends no complete event. -/
theorem processChunk_any_complete (st : StreamState) (c : Chunk) :
    (processChunk st c).events.any isCompleteB = st.events.any isCompleteB := by
  simp only [processChunk]
  have base : ∀ st1 : StreamState,
      (c.choices.foldl processChoice st1).events.any isCompleteB =
        st1.events.any isCompleteB := by
    intro st1
    induction c.choices generalizing st1 with
    | nil => rfl
    | cons ch rest ih =>
      rw [List.foldl_cons, ih, processChoice_any_complete]
  rcases c.usage with _ | u <;> simp [base]

/-- The whole read loop appends no complete event. -/
theorem decodeLoop_any_complete :
    ∀ (ls : List StreamLine) (st : StreamState),
      (decodeLoop st ls).events.any isCompleteB = st.events.any isCompleteB
  | [], _ => rfl
  | StreamLine.blank :: rest, st => decodeLoop_any_complete rest st
  | StreamLine.noise :: rest, st => decodeLoop_any_complete rest st
  | StreamLine.done :: _, _ => rfl
  | StreamLine.malformed :: rest, st => decodeLoop_any_complete rest st
  | StreamLine.chunk c :: rest, st => by
    rw [show decodeLoop st (StreamLine.chunk c :: rest) =
        decodeLoop (processChunk st c) rest from rfl,
      decodeLoop_any_complete rest (processChunk st c), processChunk_any_complete]

/-- Inserting a key grows the length by one. -/
theorem insertSorted_length (n : Nat) :
    ∀ l : List Nat, (insertSorted n l).length = l.length + 1
  | [] => rfl
  | m :: ms => by
    simp only [insertSorted]
    split_ifs <;> simp [insertSorted_length n ms]

/-- Sorting preserves the number of keys. -/
theorem sortKeys_length : ∀ l : List Nat, (sortKeys l).length = l.length
  | [] => rfl
  | n :: ns => by
    simp only [sortKeys]
    rw [insertSorted_length, sortKeys_length ns, List.length_cons]

/-- Head of an insertion is the new key or the old head. -/
theorem insertSorted_head? (n : Nat) (l : List Nat) :
    (insertSorted n l).head? = some n ∨ (insertSorted n l).head? = l.head? := by
  cases l with
  | nil => left; rfl
  | cons m ms =>
    by_cases h : n ≤ m
    · left; simp [insertSorted, h]
    · right; simp [insertSorted, h]

/-- Inserting into an ascending list keeps it ascending. -/
theorem chain'_insertSorted :
    ∀ (l : List Nat), List.Chain' (· ≤ ·) l → ∀ n, List.Chain' (· ≤ ·) (insertSorted n l) := by
  intro l
  induction l with
  | nil => intro _ n; simp [insertSorted]
  | cons m ms ih =>
    intro hch n
    simp only [insertSorted]
    by_cases h : n ≤ m
    · rw [if_pos h]
      exact List.chain'_cons.mpr ⟨h, hch⟩
    · rw [if_neg h]
      have hms : List.Chain' (· ≤ ·) ms := (List.chain'_cons'.mp hch).2
      apply List.chain'_cons'.mpr
      refine ⟨?_, ih hms n⟩
      intro y hy
      rcases insertSorted_head? n ms with hh | hh
      · rw [hh] at hy
        simp only [Option.mem_def, Option.some.injEq] at hy
        omega
      · rw [hh] at hy
        exact (List.chain'_cons'.mp hch).1 y hy

/-- The sorted key list is ascending. -/
theorem chain'_sortKeys : ∀ l : List Nat, List.Chain' (· ≤ ·) (sortKeys l)
  | [] => List.chain'_nil
  | n :: ns => chain'_insertSorted (sortKeys ns) (chain'_sortKeys ns) n

/-- A synthesized id is never the empty string. -/
theorem call_id_ne_empty (s : String) : "call_" ++ s ≠ "" := by
  intro h
  have hlen := congrArg String.length h
  rw [String.length_append] at hlen
  rw [show ("call_" : String).length = 5 from rfl] at hlen
  simp at hlen

/-- Every finalized tool call carries a non-empty id. -/
theorem finalCalls_id_ne (st : StreamState) : ∀ tc ∈ finalCalls st, tc.id ≠ "" := by
  intro tc htc
  rcases List.mem_map.mp htc with ⟨idx, hidx, heq⟩
  by_cases h : ((dictGet st.tool_calls_by_index idx).getD ⟨"", "", ""⟩).id = ""
  · rw [← heq]
    simp only [h, if_pos rfl]
    exact call_id_ne_empty (toString idx)
  · rw [← heq]
    simp only [if_neg h]
    exact h

/-- C8: at end of streaming input, finalization visits the slots in
ascending index order (the sorted key list is ascending and one finalized
call — hence one tool_use_stop — is produced per slot), every finalized
call has a non-empty id (missing ids are synthesized as call_<index>),
and the output ends with exactly one complete event, the last event of
the sequence, carrying the aggregated response built from the accumulated
text, the finalized call list, the last finish reason and the running
usage total. -/
theorem claim8_finalization :
    ∀ ls : List StreamLine,
      (∀ tc ∈ finalCalls (decodeLoop initState ls), tc.id ≠ "") ∧
      List.Chain' (· ≤ ·)
        (sortKeys ((decodeLoop initState ls).tool_calls_by_index.map Prod.fst)) ∧
      (finalCalls (decodeLoop initState ls)).length =
        (decodeLoop initState ls).tool_calls_by_index.length ∧
      parse_stream ls =
        (decodeLoop initState ls).events
          ++ (finalCalls (decodeLoop initState ls)).map ProviderEvent.tool_use_stop
          ++ [ProviderEvent.complete (aggregate (decodeLoop initState ls))] ∧
      (parse_stream ls).getLast? =
        some (ProviderEvent.complete (aggregate (decodeLoop initState ls))) ∧
      (parse_stream ls).countP (fun e => isCompleteB e) = 1 := by
  intro ls
  have hshape : parse_stream ls =
      (decodeLoop initState ls).events
        ++ (finalCalls (decodeLoop initState ls)).map ProviderEvent.tool_use_stop
        ++ [ProviderEvent.complete (aggregate (decodeLoop initState ls))] := rfl
  refine ⟨finalCalls_id_ne _, chain'_sortKeys _, ?_, hshape, ?_, ?_⟩
  · simp [finalCalls, sortKeys_length]
  · rw [hshape, List.getLast?_concat]
  · rw [hshape]
    rw [List.countP_append, List.countP_append]
    have h1 : ((decodeLoop initState ls).events.countP fun e => isCompleteB e) = 0 := by
      apply List.countP_eq_zero.mpr
      have hany := decodeLoop_any_complete ls initState
      rw [show initState.events.any isCompleteB = false from rfl] at hany
      exact fun a ha => by
        have := List.any_eq_false.mp hany a ha
        simpa using this
    have h2 : (((finalCalls (decodeLoop initState ls)).map
        ProviderEvent.tool_use_stop).countP fun e => isCompleteB e) = 0 := by
      apply List.countP_eq_zero.mpr
      intro a ha
      rcases List.mem_map.mp ha with ⟨tc, _, heq⟩
      rw [← heq]
      simp [isCompleteB]
    rw [h1, h2]
    simp [isCompleteB]

/-- Witness for C8 at the slot-keying scenario stream. -/
theorem claim8_witness :
    (⟨"call_abc", "ls", "\x7b\"path\":\".\"\x7d"⟩ : ToolCall).id ≠ "" ∧
    (parse_stream c4Lines).countP (fun e => isCompleteB e) = 1 :=
  ⟨(claim8_finalization c4Lines).1 ⟨"call_abc", "ls", "\x7b\"path\":\".\"\x7d"⟩ (by decide),
   (claim8_finalization c4Lines).2.2.2.2.2⟩

/-- Dispatch of a call list appends exactly one tool message per call, in
call order, consuming one channel id per call. -/
theorem dispatchAll_eq :
    ∀ (replies : Nat → Option RpcReply) (calls : List ToolCall) (messages : List Msg)
      (next_id tcalls : Nat),
      dispatchAll replies calls messages next_id tcalls =
        (messages ++ (withIdx next_id calls).map (fun p => (dispatch_call replies p.1 p.2).1),
         next_id + calls.length, tcalls + calls.length)
  | replies, [], messages, next_id, tcalls => by simp [dispatchAll, withIdx]
  | replies, c :: rest, messages, next_id, tcalls => by
    rw [show dispatchAll replies (c :: rest) messages next_id tcalls =
        dispatchAll replies rest (messages ++ [(dispatch_call replies next_id c).1])
          (next_id + 1) (tcalls + 1) from rfl,
      dispatchAll_eq replies rest _ _ _,
      show withIdx next_id (c :: rest) = (next_id, c) :: withIdx (next_id + 1) rest from rfl,
      List.map_cons,
      show next_id + 1 + rest.length = next_id + (c :: rest).length from by
        simp only [List.length_cons]; omega,
      show tcalls + 1 + rest.length = tcalls + (c :: rest).length from by
        simp only [List.length_cons]; omega]
    simp [List.append_assoc]

/-- The step loop never aborts when the provider never fails. -/
theorem runSteps_no_abort :
    ∀ (left step : Nat) (provider : Nat → Except ProviderError ProviderResponse)
      (replies : Nat → Option RpcReply) (messages : List Msg) (usage : TokenUsage)
      (next_id pcalls tcalls : Nat),
      (∀ k, step ≤ k → k < step + left → ∀ e, provider k ≠ Except.error e) →
      (runSteps provider replies step left messages usage next_id pcalls
        tcalls).outcome ≠ RunOutcome.aborted := by
  intro left
  induction left with
  | zero => intro step provider replies messages usage next_id pcalls tcalls _; simp [runSteps]
  | succ m ih =>
    intro step provider replies messages usage next_id pcalls tcalls h
    rcases hp : provider step with e | resp
    · exact absurd hp (h step (by omega) (by omega) e)
    · simp only [runSteps, hp]
      by_cases hc : resp.tool_calls = []
      · simp [hc]
      · simp only [hc, if_neg, if_false]
        exact ih (step + 1) provider replies _ _ _ _ _
          (fun k h1 h2 e => h k (by omega) (by omega) e)

/-- Under a provider script that always requests tool calls, the step loop
exhausts its budget, reporting the accumulated usage and one provider call
per step. -/
theorem runSteps_budget :
    ∀ (left step : Nat) (provider : Nat → Except ProviderError ProviderResponse)
      (replies : Nat → Option RpcReply) (rs : Nat → ProviderResponse)
      (messages : List Msg) (usage : TokenUsage) (next_id pcalls tcalls : Nat),
      (∀ k, step ≤ k → k < step + left →
        provider k = Except.ok (rs k) ∧ (rs k).tool_calls ≠ []) →
      (runSteps provider replies step left messages usage next_id pcalls
          tcalls).outcome = RunOutcome.budgetExceeded ∧
      (runSteps provider replies step left messages usage next_id pcalls
          tcalls).exitCode = 1 ∧
      (runSteps provider replies step left messages usage next_id pcalls
          tcalls).finalOutput = none ∧
      (runSteps provider replies step left messages usage next_id pcalls
          tcalls).usage =
        (List.range' step left).foldl (fun u k => u.add (rs k).usage) usage ∧
      (runSteps provider replies step left messages usage next_id pcalls
          tcalls).providerCalls = pcalls + left := by
  intro left
  induction left with
  | zero =>
    intro step provider replies rs messages usage next_id pcalls tcalls _
    exact ⟨rfl, rfl, rfl, rfl, rfl⟩
  | succ m ih =>
    intro step provider replies rs messages usage next_id pcalls tcalls h
    obtain ⟨hp, hc⟩ := h step (by omega) (by omega)
    have hrec := ih (step + 1) provider replies rs
      (dispatchAll replies (rs step).tool_calls
        (messages ++ [build_assistant_message (rs step).message_content (rs step).tool_calls])
        next_id tcalls).1
      (usage.add (rs step).usage)
      (dispatchAll replies (rs step).tool_calls
        (messages ++ [build_assistant_message (rs step).message_content (rs step).tool_calls])
        next_id tcalls).2.1
      (pcalls + 1)
      (dispatchAll replies (rs step).tool_calls
        (messages ++ [build_assistant_message (rs step).message_content (rs step).tool_calls])
        next_id tcalls).2.2
      (fun k h1 h2 => h k (by omega) (by omega))
    simp only [runSteps, hp, hc, if_neg, if_false]
    refine ⟨hrec.1, hrec.2.1, hrec.2.2.1, ?_, ?_⟩
    · rw [hrec.2.2.2.1]
      rfl
    · rw [hrec.2.2.2.2]
      omega

/-- C5: a tool dispatch failure does not abort the run: the dispatched
message for a failing call is a tool-role message whose content is the
literal pattern tool call failed: followed by the error text, every
dispatched message is tool-role tagged with its originating call id, the
dispatch loop appends exactly one message per call in call order before
the loop advances, and in the concrete failing scenario the run continues
to success with the failure message in the history. -/
theorem claim5_tool_failure_handling :
    (∀ (replies : Nat → Option RpcReply) (next_id : Nat) (call : ToolCall) (e : ChannelError),
      client_request next_id (replies next_id) = Except.error e →
      dispatch_call replies next_id call =
        (Msg.tool call.id call.name ("tool call failed: " ++ e.message), next_id + 1)) ∧
    (∀ (replies : Nat → Option RpcReply) (next_id : Nat) (call : ToolCall),
      ∃ content, (dispatch_call replies next_id call).1 =
        Msg.tool call.id call.name content) ∧
    (∀ (replies : Nat → Option RpcReply) (calls : List ToolCall) (messages : List Msg)
        (next_id tcalls : Nat),
      dispatchAll replies calls messages next_id tcalls =
        (messages ++ (withIdx next_id calls).map (fun p => (dispatch_call replies p.1 p.2).1),
         next_id + calls.length, tcalls + calls.length)) ∧
    (run_agent c5Provider c5Replies [] "p" 3).outcome = RunOutcome.success ∧
    (run_agent c5Provider c5Replies [] "p" 3).messages =
      [Msg.system ("你是一个会使用工具的助手。需要时调用工具。完成后直接给出答案。回复内容尽量使用中文。"
          ++ "可用工具：" ++ "。如果任务需要写文件且存在 write 工具，必须使用 write。"),
       Msg.user "p",
       Msg.assistant none [⟨"id1", "ls", "\x7b\x7d"⟩],
       Msg.tool "id1" "ls" "tool call failed: boom",
       Msg.assistant (some "all good") []] := by
  refine ⟨?_, ?_, dispatchAll_eq, by decide, by decide⟩
  · intro replies next_id call e h
    simp [dispatch_call, h]
  · intro replies next_id call
    exact ⟨_, rfl⟩

/-- Witness for C5: the failing dispatch of the boom scenario. -/
theorem claim5_witness :
    dispatch_call c5Replies 2 ⟨"id1", "ls", "\x7b\x7d"⟩ =
      (Msg.tool "id1" "ls" "tool call failed: boom", 3) :=
  claim5_tool_failure_handling.1 c5Replies 2 ⟨"id1", "ls", "\x7b\x7d"⟩
    (ChannelError.remoteToolError "boom") rfl

/-- C6: an assistant turn with an empty tool-call list ends the run in
success right away — the text content (if any) becomes the output, after
exactly that provider call; if the budget is exhausted without success the
run ends budget-exceeded, a terminal outcome distinct from success, still
reporting the accumulated usage and one provider call per step; with
budget 1 and a provider that always requests a tool call, the run ends
budget-exceeded after exactly one tool round-trip with no final text. -/
theorem claim6_termination :
    (∀ (provider : Nat → Except ProviderError ProviderResponse)
        (replies : Nat → Option RpcReply) (step left : Nat) (messages : List Msg)
        (usage : TokenUsage) (next_id pcalls tcalls : Nat) (resp : ProviderResponse),
      provider step = Except.ok resp → resp.tool_calls = [] →
      runSteps provider replies step (left + 1) messages usage next_id pcalls tcalls =
        ⟨RunOutcome.success, 0,
         if resp.message_content.getD "" ≠ "" then some (resp.message_content.getD "") else none,
         messages ++ [build_assistant_message resp.message_content resp.tool_calls],
         usage.add resp.usage, pcalls + 1, tcalls, next_id⟩) ∧
    (∀ (provider : Nat → Except ProviderError ProviderResponse)
        (replies : Nat → Option RpcReply) (rs : Nat → ProviderResponse)
        (tools : List ToolDesc) (prompt : String) (max_steps : Nat),
      (∀ k, 1 ≤ k → k ≤ max_steps →
        provider k = Except.ok (rs k) ∧ (rs k).tool_calls ≠ []) →
      (run_agent provider replies tools prompt max_steps).outcome =
          RunOutcome.budgetExceeded ∧
      (run_agent provider replies tools prompt max_steps).outcome ≠ RunOutcome.success ∧
      (run_agent provider replies tools prompt max_steps).exitCode = 1 ∧
      (run_agent provider replies tools prompt max_steps).finalOutput = none ∧
      (run_agent provider replies tools prompt max_steps).usage =
        (List.range' 1 max_steps).foldl (fun u k => u.add (rs k).usage) TokenUsage.zero ∧
      (run_agent provider replies tools prompt max_steps).providerCalls = max_steps) ∧
    run_agent c6Provider c6Replies [] "p" 1 =
      ⟨RunOutcome.budgetExceeded, 1, none,
       [Msg.system ("你是一个会使用工具的助手。需要时调用工具。完成后直接给出答案。回复内容尽量使用中文。"
           ++ "可用工具：" ++ "。如果任务需要写文件且存在 write 工具，必须使用 write。"),
        Msg.user "p",
        Msg.assistant none [⟨"id1", "ls", "\x7b\x7d"⟩],
        Msg.tool "id1" "ls" "listing"],
       ⟨1, 1, 2⟩, 1, 1, 3⟩ := by
  refine ⟨?_, ?_, by decide⟩
  · intro provider replies step left messages usage next_id pcalls tcalls resp h1 h2
    simp [runSteps, h1, h2]
  · intro provider replies rs tools prompt max_steps h
    simp only [run_agent]
    have := runSteps_budget max_steps 1 provider replies rs
      [Msg.system ("你是一个会使用工具的助手。需要时调用工具。完成后直接给出答案。回复内容尽量使用中文。"
          ++ "可用工具：" ++ String.intercalate "，" (tools.filterMap fun t =>
            if t.name.getD "" ≠ "" then some (t.name.getD "") else none)
          ++ "。如果任务需要写文件且存在 write 工具，必须使用 write。"),
       Msg.user prompt]
      TokenUsage.zero 2 0 0
      (fun k hk1 hk2 => h k hk1 (by omega))
    exact ⟨this.1, by rw [this.1]; decide, this.2.1, this.2.2.1, this.2.2.2.1,
      by rw [this.2.2.2.2]; omega⟩

/-- Witness for C6: the success conjunct applied to the second step of the
no-tools script. -/
theorem claim6_witness :
    runSteps (fun _ => Except.ok ⟨some "hi", [], "stop", ⟨1, 2, 3⟩⟩) c6Replies 1 1 [] 
        TokenUsage.zero 2 0 0 =
      ⟨RunOutcome.success, 0, some "hi",
       [Msg.assistant (some "hi") []], ⟨1, 2, 3⟩, 1, 0, 2⟩ :=
  (claim6_termination.1 (fun _ => Except.ok ⟨some "hi", [], "stop", ⟨1, 2, 3⟩⟩)
    c6Replies 1 0 [] TokenUsage.zero 2 0 0 ⟨some "hi", [], "stop", ⟨1, 2, 3⟩⟩ rfl rfl).trans
    (by decide)

/-- C1 (amended): a channel request fails as ChannelClosed when the child
stream ends before a reply and as ProtocolViolation when the reply id does
not equal the request id — both are raised errors that end the request;
however, when such a failure occurs while dispatching a tool call from the
conversation loop, the loop catches it and turns it into a tool-role
failure message, and the run continues: it never aborts unless the
provider itself fails. -/
theorem claim1_channel_failures :
    (∀ next_id : Nat, client_request next_id none =
      Except.error ChannelError.channelClosed) ∧
    (∀ (next_id : Nat) (r : RpcReply), r.id ≠ some (toString next_id) →
      client_request next_id (some r) =
        Except.error (ChannelError.protocolViolation (toString next_id) (optDisplay r.id))) ∧
    (∀ (replies : Nat → Option RpcReply) (next_id : Nat) (call : ToolCall) (e : ChannelError),
      client_request next_id (replies next_id) = Except.error e →
      dispatch_call replies next_id call =
        (Msg.tool call.id call.name ("tool call failed: " ++ e.message), next_id + 1)) ∧
    (∀ (provider : Nat → Except ProviderError ProviderResponse)
        (replies : Nat → Option RpcReply) (tools : List ToolDesc) (prompt : String)
        (max_steps : Nat),
      (∀ k, 1 ≤ k → k ≤ max_steps → ∀ e, provider k ≠ Except.error e) →
      (run_agent provider replies tools prompt max_steps).outcome ≠ RunOutcome.aborted) := by
  refine ⟨fun _ => rfl, ?_, ?_, ?_⟩
  · intro next_id r h
    simp [client_request, h]
  · intro replies next_id call e h
    simp [dispatch_call, h]
  · intro provider replies tools prompt max_steps h
    exact runSteps_no_abort max_steps 1 provider replies _ _ _ _ _
      (fun k h1 h2 e => h k h1 (by omega) e)

/-- Counterexample for C1 as stated: during the first step the tool
channel fails with ChannelClosed (the child stream has ended), yet the
run does not abort — it continues, records the failure as a tool-role
message, and ends in success with exit code 0. -/
theorem claim1_counterexample :
    client_request 2 (c1Replies 2) = Except.error ChannelError.channelClosed ∧
    (run_agent c1Provider c1Replies [] "p" 2).outcome = RunOutcome.success ∧
    (run_agent c1Provider c1Replies [] "p" 2).outcome ≠ RunOutcome.aborted ∧
    (run_agent c1Provider c1Replies [] "p" 2).exitCode = 0 ∧
    Msg.tool "id1" "ls" "tool call failed: toolserver exited"
      ∈ (run_agent c1Provider c1Replies [] "p" 2).messages :=
  ⟨rfl, by decide, by decide, by decide, by decide⟩

/-- Witness for C1: the ChannelClosed failure folded into a tool-role
message by the dispatch path. -/
theorem claim1_witness :
    dispatch_call c1Replies 2 ⟨"id1", "ls", "\x7b\x7d"⟩ =
      (Msg.tool "id1" "ls" "tool call failed: toolserver exited", 3) :=
  claim1_channel_failures.2.2.1 c1Replies 2 ⟨"id1", "ls", "\x7b\x7d"⟩
    ChannelError.channelClosed rfl

/-- Replay folding returns the embedded response of a trailing complete
event as-is. -/
theorem response_from_events_complete (evs : List ProviderEvent) (r : ProviderResponse) :
    response_from_events (evs ++ [ProviderEvent.complete r]) = r := by
  have h : ((evs ++ [ProviderEvent.complete r]).foldl foldEvent
      ⟨none, "", [], TokenUsage.zero⟩).response = some r := by
    rw [List.foldl_append]
    rfl
  simp only [response_from_events]
  rw [h]

/-- Reading a done-free prefix first is the same as reading it inline. -/
theorem decodeLoop_append :
    ∀ (l1 : List StreamLine) (st : StreamState) (l2 : List StreamLine),
      (∀ l ∈ l1, l ≠ StreamLine.done) →
      decodeLoop st (l1 ++ l2) = decodeLoop (decodeLoop st l1) l2
  | [], st, l2, _ => rfl
  | StreamLine.blank :: rest, st, l2, h =>
    decodeLoop_append rest st l2 (fun l hl => h l (List.mem_cons_of_mem _ hl))
  | StreamLine.noise :: rest, st, l2, h =>
    decodeLoop_append rest st l2 (fun l hl => h l (List.mem_cons_of_mem _ hl))
  | StreamLine.done :: rest, st, l2, h =>
    absurd rfl (h StreamLine.done (List.mem_cons_self _ _))
  | StreamLine.malformed :: rest, st, l2, h =>
    decodeLoop_append rest st l2 (fun l hl => h l (List.mem_cons_of_mem _ hl))
  | StreamLine.chunk c :: rest, st, l2, h =>
    decodeLoop_append rest (processChunk st c) l2 (fun l hl => h l (List.mem_cons_of_mem _ hl))

/-- Decoding a run of content chunks appends their concatenation to the
text buffer and leaves slots, usage and finish reason unchanged. -/
theorem decode_textLines :
    ∀ (ts : List String) (st : StreamState),
      (decodeLoop st (ts.map mkTextLine)).content = st.content ++ concatAll ts ∧
      (decodeLoop st (ts.map mkTextLine)).tool_calls_by_index = st.tool_calls_by_index ∧
      (decodeLoop st (ts.map mkTextLine)).usage = st.usage ∧
      (decodeLoop st (ts.map mkTextLine)).finish_reason = st.finish_reason := by
  intro ts
  induction ts with
  | nil => intro st; simp [decodeLoop, concatAll]
  | cons t rest ih =>
    intro st
    rw [show (t :: rest).map mkTextLine = mkTextLine t :: rest.map mkTextLine from rfl,
      show decodeLoop st (mkTextLine t :: rest.map mkTextLine) =
        decodeLoop (processChunk st (Chunk.mk none [⟨some ⟨some t, none⟩, none⟩]))
          (rest.map mkTextLine) from rfl]
    by_cases ht : t = ""
    · have hpc : processChunk st (Chunk.mk none [⟨some ⟨some t, none⟩, none⟩]) = st := by
        simp [processChunk, processChoice, ht]
      rw [hpc]
      obtain ⟨ic, is, iu, if_⟩ := ih st
      refine ⟨?_, is, iu, if_⟩
      rw [ic, show concatAll (t :: rest) = t ++ concatAll rest from rfl, ht]
      simp
    · have hpc : processChunk st (Chunk.mk none [⟨some ⟨some t, none⟩, none⟩]) =
          { st with events := st.events ++ [ProviderEvent.content_delta t],
                    content := st.content ++ t } := by
        simp [processChunk, processChoice, ht]
      rw [hpc]
      obtain ⟨ic, is, iu, if_⟩ := ih
        { st with events := st.events ++ [ProviderEvent.content_delta t],
                  content := st.content ++ t }
      refine ⟨?_, is, iu, if_⟩
      rw [ic, show concatAll (t :: rest) = t ++ concatAll rest from rfl]
      exact String.append_assoc _ _ _

/-- Lookup of a key larger than every stored key finds nothing. -/
theorem dictGet_lt :
    ∀ (l : List (Nat × ToolCall)) (i : Nat),
      (∀ k ∈ l.map Prod.fst, k < i) → dictGet l i = none
  | [], _, _ => rfl
  | (k, v) :: rest, i, h => by
    have hk : k < i := h k (by simp)
    simp only [dictGet, if_neg (by omega : ¬ k = i)]
    exact dictGet_lt rest i (fun k2 hk2 => h k2 (by simp [hk2]))

/-- Writing a fresh key larger than every stored key appends the entry. -/
theorem dictSet_append :
    ∀ (l : List (Nat × ToolCall)) (i : Nat) (v : ToolCall),
      (∀ k ∈ l.map Prod.fst, k < i) → dictSet l i v = l ++ [(i, v)]
  | [], _, _, _ => rfl
  | (k, w) :: rest, i, v, h => by
    have hk : k < i := h k (by simp)
    simp only [dictSet, if_neg (by omega : ¬ k = i), List.cons_append, List.cons.injEq,
      true_and]
    exact dictSet_append rest i v (fun k2 hk2 => h k2 (by simp [hk2]))

/-- Processing a whole fragment on a fresh slot stores exactly the carried
call and leaves text, usage and finish reason unchanged. -/
theorem processFragment_fresh (st : StreamState) (i : Nat) (c : ToolCall)
    (h : ∀ k ∈ st.tool_calls_by_index.map Prod.fst, k < i) :
    (processFragment st
        ⟨some i, some c.id, some ⟨some c.name, some c.arguments⟩⟩).tool_calls_by_index =
      st.tool_calls_by_index ++ [(i, c)] ∧
    (processFragment st
        ⟨some i, some c.id, some ⟨some c.name, some c.arguments⟩⟩).content = st.content ∧
    (processFragment st
        ⟨some i, some c.id, some ⟨some c.name, some c.arguments⟩⟩).usage = st.usage ∧
    (processFragment st
        ⟨some i, some c.id, some ⟨some c.name, some c.arguments⟩⟩).finish_reason =
      st.finish_reason := by
  refine ⟨?_, rfl, rfl, rfl⟩
  obtain ⟨cid, cname, cargs⟩ := c
  simp only [processFragment, dictGet_lt _ _ h, Option.getD_none, Option.getD_some]
  by_cases h1 : cid = "" <;> by_cases h2 : cname = "" <;> by_cases h3 : cargs = "" <;>
    simp [h1, h2, h3, dictSet_append _ _ _ h, eq_comm]

/-- Decoding a run of whole tool-call fragments on fresh ascending slots
appends one slot per call and changes nothing else. -/
theorem decode_callLines :
    ∀ (calls : List ToolCall) (i : Nat) (st : StreamState),
      (∀ k ∈ st.tool_calls_by_index.map Prod.fst, k < i) →
      (decodeLoop st ((withIdx i calls).map mkCallLine)).tool_calls_by_index =
        st.tool_calls_by_index ++ withIdx i calls ∧
      (decodeLoop st ((withIdx i calls).map mkCallLine)).content = st.content ∧
      (decodeLoop st ((withIdx i calls).map mkCallLine)).usage = st.usage ∧
      (decodeLoop st ((withIdx i calls).map mkCallLine)).finish_reason = st.finish_reason := by
  intro calls
  induction calls with
  | nil => intro i st h; simp [withIdx, decodeLoop]
  | cons c rest ih =>
    intro i st h
    rw [show withIdx i (c :: rest) = (i, c) :: withIdx (i + 1) rest from rfl, List.map_cons,
      show decodeLoop st (mkCallLine (i, c) :: (withIdx (i + 1) rest).map mkCallLine) =
        decodeLoop (processChunk st
          ⟨none, [⟨some ⟨none, some [⟨some i, some c.id, some ⟨some c.name, some c.arguments⟩⟩]⟩,
            none⟩]⟩)
          ((withIdx (i + 1) rest).map mkCallLine) from rfl]
    have hfrag := processFragment_fresh st i c h
    have hpc1 : (processChunk st
        ⟨none, [⟨some ⟨none, some [⟨some i, some c.id, some ⟨some c.name, some c.arguments⟩⟩]⟩,
          none⟩]⟩).tool_calls_by_index = st.tool_calls_by_index ++ [(i, c)] := hfrag.1
    have hpc2 : (processChunk st
        ⟨none, [⟨some ⟨none, some [⟨some i, some c.id, some ⟨some c.name, some c.arguments⟩⟩]⟩,
          none⟩]⟩).content = st.content := hfrag.2.1
    have hpc3 : (processChunk st
        ⟨none, [⟨some ⟨none, some [⟨some i, some c.id, some ⟨some c.name, some c.arguments⟩⟩]⟩,
          none⟩]⟩).usage = st.usage := hfrag.2.2.1
    have hpc4 : (processChunk st
        ⟨none, [⟨some ⟨none, some [⟨some i, some c.id, some ⟨some c.name, some c.arguments⟩⟩]⟩,
          none⟩]⟩).finish_reason = st.finish_reason := hfrag.2.2.2
    obtain ⟨is, ic, iu, if_⟩ := ih (i + 1)
      (processChunk st
        ⟨none, [⟨some ⟨none, some [⟨some i, some c.id, some ⟨some c.name, some c.arguments⟩⟩]⟩,
          none⟩]⟩)
      (by
        rw [hpc1]
        intro k hk
        simp only [List.map_append, List.mem_append] at hk
        rcases hk with hk | hk
        · have := h k hk; omega
        · simp only [List.map_cons, List.map_nil, List.mem_singleton] at hk; omega)
    refine ⟨?_, ?_, ?_, ?_⟩
    · rw [is, hpc1, List.append_assoc]
      simp
    · rw [ic, hpc2]
    · rw [iu, hpc3]
    · rw [if_, hpc4]

/-- Adding counters to the zero usage gives them back. -/
theorem TokenUsage.zero_add (v : TokenUsage) : TokenUsage.zero.add v = v := by
  cases v
  simp [TokenUsage.add, TokenUsage.zero]

/-- Keys of an indexed call list are bounded below by the start index. -/
theorem withIdx_keys_ge :
    ∀ (calls : List ToolCall) (i : Nat), ∀ k ∈ (withIdx i calls).map Prod.fst, i ≤ k
  | [], i, k, hk => by simp [withIdx] at hk
  | c :: rest, i, k, hk => by
    rw [show withIdx i (c :: rest) = (i, c) :: withIdx (i + 1) rest from rfl] at hk
    simp only [List.map_cons, List.mem_cons] at hk
    rcases hk with rfl | hk
    · omega
    · have := withIdx_keys_ge rest (i + 1) k hk
      omega

/-- Keys of an indexed call list are ascending. -/
theorem withIdx_keys_chain :
    ∀ (calls : List ToolCall) (i : Nat),
      List.Chain' (· ≤ ·) ((withIdx i calls).map Prod.fst)
  | [], _ => List.chain'_nil
  | c :: rest, i => by
    rw [show withIdx i (c :: rest) = (i, c) :: withIdx (i + 1) rest from rfl, List.map_cons]
    apply List.chain'_cons'.mpr
    refine ⟨?_, withIdx_keys_chain rest (i + 1)⟩
    intro y hy
    have hmem := List.mem_of_mem_head? hy
    have := withIdx_keys_ge rest (i + 1) y hmem
    omega

/-- Sorting an already ascending key list is the identity. -/
theorem sortKeys_sorted_id :
    ∀ l : List Nat, List.Chain' (· ≤ ·) l → sortKeys l = l
  | [], _ => rfl
  | n :: ns, h => by
    have hns := (List.chain'_cons'.mp h).2
    rw [show sortKeys (n :: ns) = insertSorted n (sortKeys ns) from rfl,
      sortKeys_sorted_id ns hns]
    cases ns with
    | nil => rfl
    | cons m ms =>
      have hnm : n ≤ m := (List.chain'_cons'.mp h).1 m rfl
      simp [insertSorted, hnm]

/-- Finalizing the slot arena built from indexed calls with non-empty ids
returns exactly the call list. -/
theorem finalize_map :
    ∀ (calls : List ToolCall) (i : Nat),
      (∀ c ∈ calls, c.id ≠ "") →
      ((withIdx i calls).map Prod.fst).map (fun idx =>
        if ((dictGet (withIdx i calls) idx).getD ⟨"", "", ""⟩).id = ""
        then { (dictGet (withIdx i calls) idx).getD ⟨"", "", ""⟩ with
                 id := "call_" ++ toString idx }
        else (dictGet (withIdx i calls) idx).getD ⟨"", "", ""⟩) = calls
  | [], _, _ => rfl
  | c :: rest, i, h => by
    rw [show withIdx i (c :: rest) = (i, c) :: withIdx (i + 1) rest from rfl, List.map_cons,
      List.map_cons]
    have hhead : dictGet ((i, c) :: withIdx (i + 1) rest) i = some c := by
      simp [dictGet]
    have hcongr : ∀ idx ∈ (withIdx (i + 1) rest).map Prod.fst,
        dictGet ((i, c) :: withIdx (i + 1) rest) idx = dictGet (withIdx (i + 1) rest) idx := by
      intro idx hidx
      have := withIdx_keys_ge rest (i + 1) idx hidx
      simp [dictGet, show ¬ i = idx by omega]
    congr 1
    · rw [hhead]
      simp only [Option.getD_some]
      rw [if_neg (h c (by simp))]
    · rw [List.map_congr_left (fun idx hidx => by rw [hcongr idx hidx])]
      exact finalize_map rest (i + 1) (fun c2 hc2 => h c2 (by simp [hc2]))

/-- Finalization of a decoder state whose slot arena is an indexed call
list with non-empty ids. -/
theorem finalCalls_withIdx (st : StreamState) (calls : List ToolCall)
    (hslots : st.tool_calls_by_index = withIdx 0 calls)
    (hids : ∀ c ∈ calls, c.id ≠ "") :
    finalCalls st = calls := by
  unfold finalCalls
  rw [hslots, sortKeys_sorted_id _ (withIdx_keys_chain calls 0)]
  exact finalize_map calls 0 hids

/-- C3: for every logically identical completion (any text chunking, any
tool-call list with provider-assigned non-empty ids, any usage totals) the
streaming path — decode the chunks, then fold the events — and the unary
request path yield aggregated responses with identical content, tool-call
list and usage; in particular the Hello world stream with one ls call on
{"path":"."} matches the unary response encoding the same completion. -/
theorem claim3_stream_unary_equivalence :
    (∀ c : Completion, (∀ s ∈ c.calls, s.id ≠ "") →
      ∃ ur, unary_request (encodeUnary c) = some ur ∧
        (response_from_events (parse_stream (encodeStream c))).message_content =
          ur.message_content ∧
        (response_from_events (parse_stream (encodeStream c))).tool_calls = ur.tool_calls ∧
        (response_from_events (parse_stream (encodeStream c))).usage = ur.usage) ∧
    response_from_events (parse_stream (encodeStream helloCompletion)) =
      ⟨some "Hello world", [⟨"call_abc", "ls", "\x7b\"path\":\".\"\x7d"⟩], "", ⟨5, 7, 12⟩⟩ ∧
    unary_request (encodeUnary helloCompletion) =
      some ⟨some "Hello world", [⟨"call_abc", "ls", "\x7b\"path\":\".\"\x7d"⟩], "",
        ⟨5, 7, 12⟩⟩ := by
  refine ⟨?_, by decide, by decide⟩
  intro c hids
  have hmapeta : c.calls.map (fun s => (⟨s.id, s.name, s.arguments⟩ : ToolCall)) = c.calls := by
    induction c.calls with
    | nil => rfl
    | cons a l ihl => simp [ihl]
  have hu : unary_request (encodeUnary c) =
      some ⟨some (concatAll c.textChunks), c.calls, "", c.usage⟩ := by
    have h0 : unary_request (encodeUnary c) = some
        ⟨some (concatAll c.textChunks),
         (c.calls.map fun s => (⟨some s.id, some ⟨some s.name, some s.arguments⟩⟩ : RawCall)).map
           (fun call =>
             (⟨call.id.getD "", (call.function.getD ⟨none, none⟩).name.getD "",
               (call.function.getD ⟨none, none⟩).arguments.getD "\x7b\x7d"⟩ : ToolCall)),
         "", c.usage⟩ := rfl
    rw [h0, List.map_map]
    show some (⟨some (concatAll c.textChunks),
      c.calls.map (fun s => (⟨s.id, s.name, s.arguments⟩ : ToolCall)), "", c.usage⟩ :
        ProviderResponse) = _
    rw [hmapeta]
  have hnd1 : ∀ l ∈ c.textChunks.map mkTextLine, l ≠ StreamLine.done := by
    intro l hl
    rcases List.mem_map.mp hl with ⟨t, _, rfl⟩
    simp [mkTextLine]
  have hnd2 : ∀ l ∈ (withIdx 0 c.calls).map mkCallLine, l ≠ StreamLine.done := by
    intro l hl
    rcases List.mem_map.mp hl with ⟨p, _, rfl⟩
    simp [mkCallLine]
  have hnd12 : ∀ l ∈ c.textChunks.map mkTextLine ++ (withIdx 0 c.calls).map mkCallLine,
      l ≠ StreamLine.done := by
    intro l hl
    rcases List.mem_append.mp hl with hl | hl
    · exact hnd1 l hl
    · exact hnd2 l hl
  have hdec : decodeLoop initState (encodeStream c) =
      decodeLoop
        (decodeLoop (decodeLoop initState (c.textChunks.map mkTextLine))
          ((withIdx 0 c.calls).map mkCallLine))
        [mkUsageLine c.usage, StreamLine.done] := by
    rw [show encodeStream c =
        (c.textChunks.map mkTextLine ++ (withIdx 0 c.calls).map mkCallLine)
          ++ [mkUsageLine c.usage, StreamLine.done] from rfl,
      decodeLoop_append _ _ _ hnd12, decodeLoop_append _ _ _ hnd1]
  obtain ⟨t_c, t_s, t_u, t_f⟩ := decode_textLines c.textChunks initState
  obtain ⟨c_s, c_c, c_u, c_f⟩ := decode_callLines c.calls 0
    (decodeLoop initState (c.textChunks.map mkTextLine))
    (by rw [t_s]; intro k hk; simp [initState] at hk)
  have h3 : decodeLoop (decodeLoop (decodeLoop initState (c.textChunks.map mkTextLine))
      ((withIdx 0 c.calls).map mkCallLine)) [mkUsageLine c.usage, StreamLine.done] =
      { decodeLoop (decodeLoop initState (c.textChunks.map mkTextLine))
          ((withIdx 0 c.calls).map mkCallLine) with
        usage := (decodeLoop (decodeLoop initState (c.textChunks.map mkTextLine))
          ((withIdx 0 c.calls).map mkCallLine)).usage.add
            ⟨c.usage.input_tokens, c.usage.output_tokens, c.usage.total_tokens⟩ } := rfl
  have hcontent : (decodeLoop initState (encodeStream c)).content =
      concatAll c.textChunks := by
    rw [hdec, h3]
    show (decodeLoop (decodeLoop initState (c.textChunks.map mkTextLine))
        ((withIdx 0 c.calls).map mkCallLine)).content = concatAll c.textChunks
    rw [c_c, t_c]
    show "" ++ concatAll c.textChunks = concatAll c.textChunks
    simp
  have hslots : (decodeLoop initState (encodeStream c)).tool_calls_by_index =
      withIdx 0 c.calls := by
    rw [hdec, h3]
    show (decodeLoop (decodeLoop initState (c.textChunks.map mkTextLine))
        ((withIdx 0 c.calls).map mkCallLine)).tool_calls_by_index = withIdx 0 c.calls
    rw [c_s, t_s]
    show [] ++ withIdx 0 c.calls = withIdx 0 c.calls
    simp
  have husage : (decodeLoop initState (encodeStream c)).usage = c.usage := by
    rw [hdec, h3]
    show (decodeLoop (decodeLoop initState (c.textChunks.map mkTextLine))
        ((withIdx 0 c.calls).map mkCallLine)).usage.add
          ⟨c.usage.input_tokens, c.usage.output_tokens, c.usage.total_tokens⟩ = c.usage
    rw [c_u, t_u]
    show TokenUsage.zero.add
        ⟨c.usage.input_tokens, c.usage.output_tokens, c.usage.total_tokens⟩ = c.usage
    rw [TokenUsage.zero_add]
  have htc : finalCalls (decodeLoop initState (encodeStream c)) = c.calls :=
    finalCalls_withIdx _ c.calls hslots hids
  have hps : response_from_events (parse_stream (encodeStream c)) =
      aggregate (decodeLoop initState (encodeStream c)) :=
    response_from_events_complete _ _
  refine ⟨⟨some (concatAll c.textChunks), c.calls, "", c.usage⟩, hu, ?_, ?_, ?_⟩
  · rw [hps]
    show some (decodeLoop initState (encodeStream c)).content = some (concatAll c.textChunks)
    rw [hcontent]
  · rw [hps]
    show finalCalls (decodeLoop initState (encodeStream c)) = c.calls
    exact htc
  · rw [hps]
    show (decodeLoop initState (encodeStream c)).usage = c.usage
    exact husage

/-- Witness for C3 at the Hello world completion. -/
theorem claim3_witness :
    (response_from_events (parse_stream (encodeStream helloCompletion))).message_content =
      some "Hello world" ∧
    (response_from_events (parse_stream (encodeStream helloCompletion))).tool_calls =
      [⟨"call_abc", "ls", "\x7b\"path\":\".\"\x7d"⟩] := by
  obtain ⟨ur, hu, hc, ht, hus⟩ :=
    claim3_stream_unary_equivalence.1 helloCompletion (by decide)
  have h0 : unary_request (encodeUnary helloCompletion) =
      some (⟨some "Hello world", [⟨"call_abc", "ls", "\x7b\"path\":\".\"\x7d"⟩], "",
        ⟨5, 7, 12⟩⟩ : ProviderResponse) := by decide
  rw [h0] at hu
  have hur : ur = ⟨some "Hello world", [⟨"call_abc", "ls", "\x7b\"path\":\".\"\x7d"⟩], "",
      ⟨5, 7, 12⟩⟩ := (Option.some.inj hu).symm
  rw [hc, ht, hur]
  exact ⟨rfl, rfl⟩
